import Mathlib

/-!
Verification of the candidate-propagation Sudoku solver: a shallow embedding of
the cell/puzzle data model, the seven deduction strategies and the fixed-point
solver driver, together with theorems about parsing, invariants, monotonicity,
soundness and termination.

Python mutation of shared `SudokuCell` objects is modelled by explicit state
passing: a puzzle is the owning flat list of 81 cells (row-major), every view
(row / column / box) is a list of indices into that list, and each in-place
cell mutation becomes a functional update of the owning list at one index.
-/

/-- Modelled from the spec: the repository imports a `constant` module that is
not among the provided sources.  Per the spec the value `0` denotes a blank
(unsolved) cell. -/
def NO_SOLUTION_VALUE : Int := 0

/-- Modelled from the spec: the default candidate universe is the digit set
`{1..9}` (spec section 3, "candidates (set of distinct values from 1..9)"). -/
def DEFAULT_POSSIBLE_CELL_VALUE : List Int := [1, 2, 3, 4, 5, 6, 7, 8, 9]

/-- Modelled from the spec: the board is 9 x 9 (spec section 1). -/
def NUMBER_OF_ROWS : Nat := 9

/-- Modelled from the spec: the board is 9 x 9 (spec section 1). -/
def NUMBER_OF_COLUMNS : Nat := 9

/-- Modelled from the spec: there are 9 boxes (spec section 3). -/
def NUMBER_OF_BOXES : Nat := 9

/-- Modelled from the spec: 81 cells in total (spec section 6). -/
def NUMBER_OF_CELLS : Nat := 81

/-- Modelled from the spec: boxes are 3 x 3 blocks (spec section 8). -/
def BOX_WIDTH : Nat := 3

/-- `SudokuCell` from `sudoku/unit/cell.py`: a fixed position holding a value
(`0` = unsolved) and a candidate list. -/
structure SudokuCell where
  row_id : Nat
  col_id : Nat
  value : Int
  candidates : List Int
deriving DecidableEq, Repr

/-- `SudokuCell.__init__`: the candidate list is `[value]` when the cell is
constructed solved (`value != 0`) and the full digit universe otherwise.
The Python constructor only checks that `value` is an `int`; it performs no
range check. -/
def SudokuCell.init (row_id col_id : Nat) (value : Int) : SudokuCell :=
  { row_id := row_id
    col_id := col_id
    value := value
    candidates :=
      if value ≠ NO_SOLUTION_VALUE then [value] else DEFAULT_POSSIBLE_CELL_VALUE }

/-- `SudokuCell.is_solved`. -/
def SudokuCell.is_solved (c : SudokuCell) : Bool :=
  c.value ≠ NO_SOLUTION_VALUE

/-- `SudokuCell.number_of_candidates`. -/
def SudokuCell.number_of_candidates (c : SudokuCell) : Nat :=
  c.candidates.length

/-- `SudokuCell.remove_candidate`: drop the first occurrence of `value` if
present, then auto-promote if exactly one candidate remains. -/
def SudokuCell.remove_candidate (c : SudokuCell) (value : Int) : SudokuCell :=
  let cand := if value ∈ c.candidates then c.candidates.erase value else c.candidates
  if cand.length = 1 then
    { c with candidates := cand, value := cand.headD 0 }
  else
    { c with candidates := cand }

/-- `SudokuCell.remove_all_candidates_except`: collapse to `[value]` and promote
when `value` is currently a candidate; a silent no-op otherwise. -/
def SudokuCell.remove_all_candidates_except (c : SudokuCell) (value : Int) : SudokuCell :=
  if value ∈ c.candidates then { c with candidates := [value], value := value } else c

/-- `SudokuCell.set_candidates`: wholesale replacement, auto-promote on a
singleton; no validation of the new list. -/
def SudokuCell.set_candidates (c : SudokuCell) (candidates : List Int) : SudokuCell :=
  if candidates.length = 1 then
    { c with candidates := candidates, value := candidates.headD 0 }
  else
    { c with candidates := candidates }

/-- The cell used as an out-of-range lookup default; never reachable at the
indices the theorems quantify over. -/
def defaultCell : SudokuCell := SudokuCell.init 0 0 0

/-- `SudokuPuzzle` from `sudoku/sudoku.py`: the canonical owner of the 81 cells,
stored row-major. -/
structure SudokuPuzzle where
  cells : List SudokuCell
deriving DecidableEq, Repr

/-- Flat row-major index of 1-based grid position `(r, c)`. -/
def gridIndex (r c : Nat) : Nat :=
  (r - 1) * 9 + (c - 1)

/-- Read the cell stored at flat index `i`. -/
def SudokuPuzzle.getIdx (p : SudokuPuzzle) (i : Nat) : SudokuCell :=
  p.cells.getD i defaultCell

/-- Replace the cell stored at flat index `i` (the functional image of a Python
in-place cell mutation). -/
def SudokuPuzzle.setIdx (p : SudokuPuzzle) (i : Nat) (c : SudokuCell) : SudokuPuzzle :=
  ⟨p.cells.set i c⟩

/-- `SudokuPuzzle.__getitem__` with a valid 1-based index pair. -/
def SudokuPuzzle.getCell (p : SudokuPuzzle) (r c : Nat) : SudokuCell :=
  p.getIdx (gridIndex r c)

/-- Starts of the runs of ten consecutive Unicode decimal digits (general
category `Nd`, Unicode 14.0, the table CPython 3.11 consults): `int()` accepts
exactly these characters, and the value of a digit is its offset from the start
of its run (ASCII `0x30`, Arabic-Indic `0x660`, fullwidth `0xFF10`, …).  The
runs are sorted and pairwise disjoint, so each digit lies in exactly one. -/
def ndDigitRangeStarts : List Nat :=
  [0x30, 0x660, 0x6F0, 0x7C0, 0x966, 0x9E6, 0xA66, 0xAE6, 0xB66, 0xBE6,
   0xC66, 0xCE6, 0xD66, 0xDE6, 0xE50, 0xED0, 0xF20, 0x1040, 0x1090, 0x17E0,
   0x1810, 0x1946, 0x19D0, 0x1A80, 0x1A90, 0x1B50, 0x1BB0, 0x1C40, 0x1C50, 0xA620,
   0xA8D0, 0xA900, 0xA9D0, 0xA9F0, 0xAA50, 0xABF0, 0xFF10, 0x104A0, 0x10D30, 0x11066,
   0x110F0, 0x11136, 0x111D0, 0x112F0, 0x11450, 0x114D0, 0x11650, 0x116C0, 0x11730, 0x118E0,
   0x11950, 0x11C50, 0x11D50, 0x11DA0, 0x16A60, 0x16AC0, 0x16B50, 0x1D7CE, 0x1D7D8, 0x1D7E2,
   0x1D7EC, 0x1D7F6, 0x1E140, 0x1E2F0, 0x1E950, 0x1FBF0]

/-- Whether `int()` accepts the character: a Unicode decimal digit (category
`Nd`), i.e. a member of some run of `ndDigitRangeStarts` — not only ASCII
`'0'..'9'`. -/
def isPyDigit (ch : Char) : Bool :=
  (ndDigitRangeStarts.find?
    (fun start => decide (start ≤ ch.toNat ∧ ch.toNat < start + 10))).isSome

/-- `int(ch)` on one character of the puzzle string: any Unicode decimal digit
parses to its value (its offset inside its run), any other character raises
`ValueError`. -/
def charToCellValue (ch : Char) : Except String Int :=
  match ndDigitRangeStarts.find?
      (fun start => decide (start ≤ ch.toNat ∧ ch.toNat < start + 10)) with
  | some start => .ok ((ch.toNat : Int) - (start : Int))
  | none => .error "ValueError: invalid literal for int"

/-- `sudoku_string[str_id]`: out-of-range indexing raises `IndexError`. -/
def getCharAt (s : List Char) (i : Nat) : Except String Char :=
  if h : i < s.length then .ok (s.get ⟨i, h⟩)
  else .error "IndexError: string index out of range"

/-- The cell-construction loop of `__setup_grid` over the (row-major) flat
positions still to fill. -/
def setup_grid_go (s : List Char) : List Nat → Except String (List SudokuCell)
  | [] => .ok []
  | k :: ks =>
    match getCharAt s k with
    | .error e => .error e
    | .ok ch =>
      match charToCellValue ch with
      | .error e => .error e
      | .ok v =>
        match setup_grid_go s ks with
        | .error e => .error e
        | .ok rest => .ok (SudokuCell.init (k / 9 + 1) (k % 9 + 1) v :: rest)

/-- `SudokuPuzzle.__setup_grid`: build the 81 cells row by row from the input
string.  There is no length or charset validation beyond what indexing and
`int()` themselves raise; characters past position 80 are never read. -/
def setup_grid (s : List Char) : Except String (List SudokuCell) :=
  setup_grid_go s (List.range 81)

/-- `SudokuPuzzle.__init__` restricted to the grid construction (the row /
column / box views are derived, non-owning index selections below). -/
def SudokuPuzzle.init (s : List Char) : Except String SudokuPuzzle :=
  (setup_grid s).map (fun cs => ⟨cs⟩)

/-- `SudokuPuzzle.to_box_id`, the pure mapping formula. -/
def to_box_id (row_id col_id : Nat) : Nat :=
  (row_id - 1) / BOX_WIDTH * BOX_WIDTH + (col_id - 1) / BOX_WIDTH + 1

/-- `SudokuPuzzle.to_box_id` together with its defensive out-of-range check. -/
def to_box_id_checked (row_id col_id : Nat) : Except String Nat :=
  let box_id := to_box_id row_id col_id
  if box_id < 1 ∨ box_id > NUMBER_OF_BOXES then
    .error "Box ID is out of range."
  else
    .ok box_id

/-- `SudokuPuzzle.count_total_candidates`. -/
def countTotalCandidates (p : SudokuPuzzle) : Nat :=
  (p.cells.map (fun c => c.candidates.length)).sum

/-- `SudokuPuzzle.count_solved_cells`. -/
def countSolvedCells (p : SudokuPuzzle) : Nat :=
  (p.cells.filter (fun c => c.is_solved)).length

/-- `SudokuPuzzle.is_solved`. -/
def SudokuPuzzle.is_solved (p : SudokuPuzzle) : Bool :=
  countSolvedCells p = NUMBER_OF_CELLS

/-- Indices of the cells of row `r` (1-based), as `__setup_rows` selects them. -/
def rowIndices (r : Nat) : List Nat :=
  (List.range 9).map (fun k => (r - 1) * 9 + k)

/-- Indices of the cells of column `c` (1-based), as `__setup_columns` selects
them. -/
def colIndices (c : Nat) : List Nat :=
  (List.range 9).map (fun k => k * 9 + (c - 1))

/-- Indices of the cells of box `b` (1-based), flattened row-major exactly as
`__setup_boxes` slices them. -/
def boxIndices (b : Nat) : List Nat :=
  ((List.range 3).map (fun dr =>
    (List.range 3).map (fun dc =>
      ((b - 1) / 3 * 3 + dr) * 9 + ((b - 1) % 3 * 3 + dc)))).flatten

/-- The row view (`SudokuRow`): a non-owning selection over the puzzle cells. -/
def SudokuPuzzle.rowGroup (p : SudokuPuzzle) (r : Nat) : List SudokuCell :=
  (rowIndices r).map p.getIdx

/-- The column view (`SudokuColumn`). -/
def SudokuPuzzle.colGroup (p : SudokuPuzzle) (c : Nat) : List SudokuCell :=
  (colIndices c).map p.getIdx

/-- The box view (`SudokuBox`). -/
def SudokuPuzzle.boxGroup (p : SudokuPuzzle) (b : Nat) : List SudokuCell :=
  (boxIndices b).map p.getIdx

/-- The 9 row units in `iterate_over_rows` order. -/
def rowUnitsIdx : List (List Nat) :=
  (List.range 9).map (fun k => rowIndices (k + 1))

/-- The 9 column units in `iterate_over_columns` order. -/
def colUnitsIdx : List (List Nat) :=
  (List.range 9).map (fun k => colIndices (k + 1))

/-- The 9 box units in `iterate_over_boxes` order. -/
def boxUnitsIdx : List (List Nat) :=
  (List.range 9).map (fun k => boxIndices (k + 1))

/-- All 27 units in `iterate_over_all_units` order: rows, then columns, then
boxes. -/
def allUnitsIdx : List (List Nat) :=
  rowUnitsIdx ++ colUnitsIdx ++ boxUnitsIdx

/-- Per-unit occurrence list: one `(candidate, cell index)` entry for every
candidate of every cell, in the scan order shared by
`get_unique_candidates_and_belonging_cells` and the strategies' dict builders. -/
def occList (p : SudokuPuzzle) (unit : List Nat) : List (Int × Nat) :=
  unit.flatMap (fun i => (p.getIdx i).candidates.map (fun v => (v, i)))

/-- Dict keys in Python insertion order: candidates ordered by first
occurrence. -/
def keysInOrder (occ : List (Int × Nat)) : List Int :=
  occ.foldl (fun ks vi => if vi.1 ∈ ks then ks else ks ++ [vi.1]) []

/-- `SudokuCellGroup.get_unique_candidates_and_belonging_cells`: candidates
occurring exactly once in the unit, paired with their (unique) owning cell. -/
def get_unique_candidates (p : SudokuPuzzle) (unit : List Nat) : List (Int × Nat) :=
  let occ := occList p unit
  (keysInOrder occ).filterMap (fun v =>
    let hits := occ.filter (fun vi => vi.1 = v)
    if hits.length = 1 then some (v, (hits.headD (0, 0)).2) else none)

/-- The `candidate_cell_map` built by the pair / triplet / box-line strategies:
every candidate key (insertion order) with all its occurrence cells (scan
order). -/
def candidateCellsMap (p : SudokuPuzzle) (unit : List Nat) : List (Int × List Nat) :=
  let occ := occList p unit
  (keysInOrder occ).map (fun v => (v, (occ.filter (fun vi => vi.1 = v)).map (fun vi => vi.2)))

/-- `cell.remove_candidate(v)` performed on the cell stored at flat index `i`. -/
def doRemoveCandidate (p : SudokuPuzzle) (i : Nat) (v : Int) : SudokuPuzzle :=
  p.setIdx i ((p.getIdx i).remove_candidate v)

/-- `cell.remove_all_candidates_except(v)` performed at flat index `i`. -/
def doRemoveAllExcept (p : SudokuPuzzle) (i : Nat) (v : Int) : SudokuPuzzle :=
  p.setIdx i ((p.getIdx i).remove_all_candidates_except v)

/-- `cell.set_candidates(cs)` performed at flat index `i`. -/
def doSetCandidates (p : SudokuPuzzle) (i : Nat) (cs : List Int) : SudokuPuzzle :=
  p.setIdx i ((p.getIdx i).set_candidates cs)

/-- One peer visit of `prune_solved_value_from_units_containing_cell`: remove
the solved value from an unsolved peer that still lists it. -/
def pruneStep (solved_value : Int) (q : SudokuPuzzle) (j : Nat) : SudokuPuzzle :=
  let peer := q.getIdx j
  if peer.is_solved = false ∧ solved_value ∈ peer.candidates then
    q.setIdx j (peer.remove_candidate solved_value)
  else q

/-- `UniqueStrategy.prune_solved_value_from_units_containing_cell`: if the cell
at `i` is solved, prune its value from its row, then its column, then its
box. -/
def prune_solved_value_from_units_containing_cell (p : SudokuPuzzle) (i : Nat) : SudokuPuzzle :=
  let cell := p.getIdx i
  if cell.is_solved then
    let solved_value := cell.value
    let box_id := to_box_id cell.row_id cell.col_id
    let p1 := (rowIndices cell.row_id).foldl (pruneStep solved_value) p
    let p2 := (colIndices cell.col_id).foldl (pruneStep solved_value) p1
    (boxIndices box_id).foldl (pruneStep solved_value) p2
  else p

/-- The hidden-single phase of `UniqueStrategy.apply` for one unit: snapshot the
unique candidates, then collapse each owning cell and re-prune. -/
def applyUniqueUnit (q : SudokuPuzzle) (unit : List Nat) : SudokuPuzzle :=
  (get_unique_candidates q unit).foldl (fun q1 vi =>
    let q2 := doRemoveAllExcept q1 vi.2 vi.1
    prune_solved_value_from_units_containing_cell q2 vi.2) q

/-- `UniqueStrategy.apply`. -/
def applyUnique (p : SudokuPuzzle) : SudokuPuzzle :=
  let p1 := (List.range 81).foldl prune_solved_value_from_units_containing_cell p
  allUnitsIdx.foldl applyUniqueUnit p1

/-- `HiddenCandidatePairStrategy.apply` on one unit: snapshot the candidates
confined to exactly two cells, then restrict every matching pair of cells. -/
def applyHiddenPairUnit (q : SudokuPuzzle) (unit : List Nat) : SudokuPuzzle :=
  let pairs := (candidateCellsMap q unit).filter (fun vc => vc.2.length = 2)
  pairs.foldl (fun q1 vc =>
    pairs.foldl (fun q2 wc =>
      if vc.1 ≠ wc.1 ∧ vc.2 = wc.2 then
        vc.2.foldl (fun q3 i => doSetCandidates q3 i [vc.1, wc.1]) q2
      else q2) q1) q

/-- `HiddenCandidatePairStrategy.apply`. -/
def applyHiddenPair (p : SudokuPuzzle) : SudokuPuzzle :=
  allUnitsIdx.foldl applyHiddenPairUnit p

/-- `HiddenCandidateTripletStrategy.apply` on one unit. -/
def applyHiddenTripletUnit (q : SudokuPuzzle) (unit : List Nat) : SudokuPuzzle :=
  let triples := (candidateCellsMap q unit).filter (fun vc => vc.2.length = 3)
  triples.foldl (fun q1 vc =>
    triples.foldl (fun q2 wc =>
      triples.foldl (fun q3 xc =>
        if (vc.1 ≠ wc.1 ∧ vc.1 ≠ xc.1 ∧ wc.1 ≠ xc.1) ∧ vc.2 = wc.2 ∧ wc.2 = xc.2 then
          vc.2.foldl (fun q4 i => doSetCandidates q4 i [vc.1, wc.1, xc.1]) q3
        else q3) q2) q1) q

/-- `HiddenCandidateTripletStrategy.apply`. -/
def applyHiddenTriplet (p : SudokuPuzzle) : SudokuPuzzle :=
  allUnitsIdx.foldl applyHiddenTripletUnit p

/-- The ordered index pairs `(l[i], l[j])`, `i < j`, visited by
`NakedPairStrategy.apply`. -/
def orderedPairs {α : Type} : List α → List (α × α)
  | [] => []
  | x :: xs => (xs.map (fun y => (x, y))) ++ orderedPairs xs

/-- `NakedPairStrategy.apply` on one unit: snapshot the cells with exactly two
candidates, then for each pair with (currently) identical candidate lists,
remove those candidates from every other cell of the unit. -/
def applyNakedPairUnit (q : SudokuPuzzle) (unit : List Nat) : SudokuPuzzle :=
  let twoCandidateCells := unit.filter (fun i => (q.getIdx i).candidates.length = 2)
  (orderedPairs twoCandidateCells).foldl (fun q1 ij =>
    let cell1 := q1.getIdx ij.1
    let cell2 := q1.getIdx ij.2
    if cell1.candidates = cell2.candidates then
      let pair_candidates := cell1.candidates
      unit.foldl (fun q2 j =>
        if j ≠ ij.1 ∧ j ≠ ij.2 then
          pair_candidates.foldl (fun q3 v => doRemoveCandidate q3 j v) q2
        else q2) q1
    else q1) q

/-- `NakedPairStrategy.apply`. -/
def applyNakedPair (p : SudokuPuzzle) : SudokuPuzzle :=
  allUnitsIdx.foldl applyNakedPairUnit p

/-- Whether every element of the list equals its head: for the nonempty lists
this is applied to, exactly Python's `len(set(l)) == 1`. -/
def allEqNat (l : List Nat) : Bool :=
  l.all (fun x => x = l.headD 0)

/-- Remove candidate `v` from every cell of `line` that is not among the
occurrence cells `cs` (`if cell not in cells: cell.remove_candidate(...)`). -/
def lineRemoveOutside (q : SudokuPuzzle) (line : List Nat) (cs : List Nat) (v : Int) : SudokuPuzzle :=
  line.foldl (fun qq j => if j ∈ cs then qq else doRemoveCandidate qq j v) q

/-- `BoxLineInterpolationStrategy.apply` on one box: for each candidate whose
occurrences (more than one) all lie in one row, prune the rest of that row;
then likewise for a single column. -/
def applyBoxLineInterpolationBox (q : SudokuPuzzle) (unit : List Nat) : SudokuPuzzle :=
  (candidateCellsMap q unit).foldl (fun q1 vc =>
    if vc.2.length > 1 then
      let rws := vc.2.map (fun i => (q1.getIdx i).row_id)
      let cls := vc.2.map (fun i => (q1.getIdx i).col_id)
      let q2 :=
        if allEqNat rws then lineRemoveOutside q1 (rowIndices (rws.headD 0)) vc.2 vc.1 else q1
      if allEqNat cls then lineRemoveOutside q2 (colIndices (cls.headD 0)) vc.2 vc.1 else q2
    else q1) q

/-- `BoxLineInterpolationStrategy.apply`. -/
def applyBoxLineInterpolation (p : SudokuPuzzle) : SudokuPuzzle :=
  boxUnitsIdx.foldl applyBoxLineInterpolationBox p

/-- `BoxLineExtrapolationStrategy.apply` on one row or column: for each
candidate whose occurrences all lie in one box, prune the rest of that box. -/
def applyBoxLineExtrapolationUnit (q : SudokuPuzzle) (unit : List Nat) : SudokuPuzzle :=
  (candidateCellsMap q unit).foldl (fun q1 vc =>
    let bxs := vc.2.map (fun i => to_box_id (q1.getIdx i).row_id (q1.getIdx i).col_id)
    if allEqNat bxs then lineRemoveOutside q1 (boxIndices (bxs.headD 0)) vc.2 vc.1 else q1) q

/-- `BoxLineExtrapolationStrategy.apply`: rows first, then columns. -/
def applyBoxLineExtrapolation (p : SudokuPuzzle) : SudokuPuzzle :=
  let p1 := rowUnitsIdx.foldl applyBoxLineExtrapolationUnit p
  colUnitsIdx.foldl applyBoxLineExtrapolationUnit p1

/-- The eliminations `RectangleCornerReductionsStrategy` performs for one
common corner candidate: the rest of the two corner rows, then the rest of the
two corner columns. -/
def rectangleRemovals (q : SudokuPuzzle) (tlr tlc brr brc : Nat) (v : Int) : SudokuPuzzle :=
  let q3 := (List.range' 1 9).foldl (fun qq c =>
    if c ≠ tlc ∧ c ≠ brc then
      let qq1 := doRemoveCandidate qq (gridIndex tlr c) v
      doRemoveCandidate qq1 (gridIndex brr c) v
    else qq) q
  (List.range' 1 9).foldl (fun qq r =>
    if r ≠ tlr ∧ r ≠ brr then
      let qq1 := doRemoveCandidate qq (gridIndex r tlc) v
      doRemoveCandidate qq1 (gridIndex r brc) v
    else qq) q3

/-- One iteration of the outer corner scan of
`RectangleCornerReductionsStrategy.apply`: try cell `i` as the top-left corner
against every cell as the bottom-right corner, intersect the four corners'
candidates, and eliminate every common candidate from the rest of the two rows
and two columns. -/
def rectangleOuterStep (q : SudokuPuzzle) (i : Nat) : SudokuPuzzle :=
  (List.range 81).foldl (fun q1 j =>
    let tl := q1.getIdx i
    let br := q1.getIdx j
    if br.row_id > tl.row_id ∧ br.col_id > tl.col_id then
      let tr := q1.getCell tl.row_id br.col_id
      let bl := q1.getCell br.row_id tl.col_id
      let common := tl.candidates.filter (fun v =>
        v ∈ tr.candidates ∧ v ∈ bl.candidates ∧ v ∈ br.candidates)
      common.foldl (fun q2 v =>
        rectangleRemovals q2 tl.row_id tl.col_id br.row_id br.col_id v) q1
    else q1) q

/-- `RectangleCornerReductionsStrategy.apply`: scan all ordered cell pairs as
top-left / bottom-right corners. -/
def applyRectangleCornerReductions (p : SudokuPuzzle) : SudokuPuzzle :=
  (List.range 81).foldl rectangleOuterStep p

/-- The closed set of the seven deduction strategies. -/
inductive SolvingStrategy where
  | uniqueStrategy
  | hiddenCandidatePairStrategy
  | hiddenCandidateTripletStrategy
  | nakedPairStrategy
  | boxLineInterpolationStrategy
  | boxLineExtrapolationStrategy
  | rectangleCornerReductionsStrategy
deriving DecidableEq, Repr

/-- Strategy dispatch (`strategy.apply(puzzle)`). -/
def SolvingStrategy.apply : SolvingStrategy → SudokuPuzzle → SudokuPuzzle
  | .uniqueStrategy, p => applyUnique p
  | .hiddenCandidatePairStrategy, p => applyHiddenPair p
  | .hiddenCandidateTripletStrategy, p => applyHiddenTriplet p
  | .nakedPairStrategy, p => applyNakedPair p
  | .boxLineInterpolationStrategy, p => applyBoxLineInterpolation p
  | .boxLineExtrapolationStrategy, p => applyBoxLineExtrapolation p
  | .rectangleCornerReductionsStrategy, p => applyRectangleCornerReductions p

/-- `SudokuSolver` holds the ordered strategy list. -/
structure SudokuSolver where
  strategies : List SolvingStrategy
deriving DecidableEq, Repr

/-- `SudokuSolver.__init__`: stores the list; its body contains no raise
statement, so construction always succeeds. -/
def SudokuSolver.init_checked (strategies : List SolvingStrategy) : Except String SudokuSolver :=
  .ok ⟨strategies⟩

/-- The inner scan of `SudokuSolver.solve`: try each strategy in order and
restart (return) as soon as the total candidate count drops below `last`. -/
def scanStrategies : List SolvingStrategy → SudokuPuzzle → Nat → SudokuPuzzle
  | [], p, _ => p
  | s :: rest, p, last =>
    let q := s.apply p
    if countTotalCandidates q < last then q else scanStrategies rest q last

/-- The outer `while True` loop of `SudokuSolver.solve`, with explicit fuel;
the termination theorem shows fuel `countTotalCandidates p + 1` always
suffices. -/
def solveLoopFuel (strategies : List SolvingStrategy) : Nat → SudokuPuzzle → SudokuPuzzle
  | 0, p => p
  | fuel + 1, p =>
    let q := scanStrategies strategies p (countTotalCandidates p)
    if countSolvedCells q = NUMBER_OF_CELLS then q
    else if countTotalCandidates q = countTotalCandidates p then q
    else solveLoopFuel strategies fuel q

/-- The solver loop at its sufficient fuel. -/
def solveLoop (strategies : List SolvingStrategy) (p : SudokuPuzzle) : SudokuPuzzle :=
  solveLoopFuel strategies (countTotalCandidates p + 1) p

/-- `SudokuSolver.solve`: raises `ValueError` on an empty strategy list, else
runs the loop to a terminal state and returns the mutated puzzle. -/
def SudokuSolver.solve (solver : SudokuSolver) (p : SudokuPuzzle) : Except String SudokuPuzzle :=
  if solver.strategies.length = 0 then .error "No solving strategies provided."
  else .ok (solveLoop solver.strategies p)

/-- The public mutating operations of the core, for invariant claims ranging
over arbitrary operation sequences. -/
inductive PuzzleOp where
  | removeCand (i : Nat) (v : Int)
  | removeAllExcept (i : Nat) (v : Int)
  | setCands (i : Nat) (cs : List Int)
  | strategyApply (s : SolvingStrategy)
  | solverSolve (strategies : List SolvingStrategy)

/-- Interpret one public operation (a failing `solve` call leaves the puzzle
untouched). -/
def applyPuzzleOp (p : SudokuPuzzle) : PuzzleOp → SudokuPuzzle
  | .removeCand i v => doRemoveCandidate p i v
  | .removeAllExcept i v => doRemoveAllExcept p i v
  | .setCands i cs => doSetCandidates p i cs
  | .strategyApply s => s.apply p
  | .solverSolve strategies =>
      if strategies.length = 0 then p else solveLoop strategies p

/-- Interpret a sequence of public operations. -/
def applyPuzzleOps (p : SudokuPuzzle) (ops : List PuzzleOp) : SudokuPuzzle :=
  ops.foldl applyPuzzleOp p

/-- One direction of the cell invariant: a singleton candidate list always
lists exactly the stored value. -/
def CellSync (c : SudokuCell) : Prop :=
  c.candidates.length = 1 → c.candidates = [c.value]

/-- `CellSync` at every index. -/
def SyncOK (p : SudokuPuzzle) : Prop :=
  ∀ i, CellSync (p.getIdx i)

/-- Structural well-formedness: 81 owned cells whose position fields match
their storage position. -/
def PosOK (p : SudokuPuzzle) : Prop :=
  p.cells.length = 81 ∧
  ∀ i < 81, (p.getIdx i).row_id = i / 9 + 1 ∧ (p.getIdx i).col_id = i % 9 + 1

/-- All candidates drawn from the digit universe 1..9. -/
def CandsOK (p : SudokuPuzzle) : Prop :=
  ∀ i < 81, ∀ v ∈ (p.getIdx i).candidates, v ∈ DEFAULT_POSSIBLE_CELL_VALUE

/-- A solved cell's candidate list is exactly its value. -/
def SolvedSync (p : SudokuPuzzle) : Prop :=
  ∀ i < 81, (p.getIdx i).value ≠ 0 → (p.getIdx i).candidates = [(p.getIdx i).value]

/-- The puzzle state keeps the solution digit `s i` available in every cell. -/
def ConsistentWith (s : Nat → Int) (p : SudokuPuzzle) : Prop :=
  ∀ i < 81, s i ∈ (p.getIdx i).candidates

/-- A valid full Sudoku solution over the flat indices: all digits, and each
digit exactly once in every row, column and box. -/
def ValidSolution (s : Nat → Int) : Prop :=
  (∀ i < 81, s i ∈ DEFAULT_POSSIBLE_CELL_VALUE) ∧
  ∀ u ∈ allUnitsIdx, ∀ d ∈ DEFAULT_POSSIBLE_CELL_VALUE,
    (u.filter (fun i => s i = d)).length = 1

/-- The hypotheses of the strategy-soundness claim: a well-formed puzzle state
consistent with the solution `s`. -/
def SoundState (s : Nat → Int) (p : SudokuPuzzle) : Prop :=
  ConsistentWith s p ∧ SolvedSync p ∧ CandsOK p ∧ PosOK p

/-- Invariant threaded through the hidden-pair / hidden-triplet action folds:
the count has not grown, and every cell is either untouched or has been set to
exactly `n` candidates. -/
def SnapLenInv (n : Nat) (q q' : SudokuPuzzle) : Prop :=
  countTotalCandidates q' ≤ countTotalCandidates q ∧
  ∀ i, q'.getIdx i = q.getIdx i ∨ (q'.getIdx i).candidates.length = n

/-- A blank 81-cell puzzle used as a concrete witness input. -/
def blankPuzzle : SudokuPuzzle := ⟨List.replicate 81 defaultCell⟩

/-- A concrete cell used as a mutation witness. -/
def witnessCell : SudokuCell := SudokuCell.mk 4 7 5 [5]

/-- The all-blank 81-character input. -/
def blankInput : List Char := List.replicate 81 '0'

/-- The puzzle parsed from the all-blank input. -/
def parsedBlank : SudokuPuzzle := (SudokuPuzzle.init blankInput).toOption.getD ⟨[]⟩

/-- An input with a single given digit 5 at position (1, 1). -/
def fiveInput : List Char := '5' :: List.replicate 80 '0'

/-- The puzzle parsed from `fiveInput`. -/
def parsedFive : SudokuPuzzle := (SudokuPuzzle.init fiveInput).toOption.getD ⟨[]⟩

/-- A concrete valid completed grid, row-major. -/
def exSolList : List Int :=
  [1, 2, 3, 4, 5, 6, 7, 8, 9, 4, 5, 6, 7, 8, 9, 1, 2, 3, 7, 8, 9, 1, 2, 3, 4, 5, 6, 2, 3, 4, 5, 6, 7, 8, 9, 1, 5, 6, 7, 8, 9, 1, 2, 3, 4, 8, 9, 1, 2, 3, 4, 5, 6, 7, 3, 4, 5, 6, 7, 8, 9, 1, 2, 6, 7, 8, 9, 1, 2, 3, 4, 5, 9, 1, 2, 3, 4, 5, 6, 7, 8]

/-- The concrete solution as a function over flat indices. -/
def exSol : Nat → Int := fun i => exSolList.getD i 0

/-- The input string of the fully solved grid. -/
def solvedInput : List Char :=
  ['1', '2', '3', '4', '5', '6', '7', '8', '9', '4', '5', '6', '7', '8', '9', '1', '2', '3', '7', '8', '9', '1', '2', '3', '4', '5', '6', '2', '3', '4', '5', '6', '7', '8', '9', '1', '5', '6', '7', '8', '9', '1', '2', '3', '4', '8', '9', '1', '2', '3', '4', '5', '6', '7', '3', '4', '5', '6', '7', '8', '9', '1', '2', '6', '7', '8', '9', '1', '2', '3', '4', '5', '9', '1', '2', '3', '4', '5', '6', '7', '8']

/-- The puzzle parsed from the fully solved grid. -/
def solvedPuzzle : SudokuPuzzle := (SudokuPuzzle.init solvedInput).toOption.getD ⟨[]⟩

/-- The solved grid with the four cells (1,1), (1,4), (2,1), (2,4) blanked:
these four unsolved cells form a rectangle whose corners share all nine
candidates. -/
def rectInput : List Char :=
  ['0', '2', '3', '0', '5', '6', '7', '8', '9', '0', '5', '6', '0', '8', '9', '1', '2', '3', '7', '8', '9', '1', '2', '3', '4', '5', '6', '2', '3', '4', '5', '6', '7', '8', '9', '1', '5', '6', '7', '8', '9', '1', '2', '3', '4', '8', '9', '1', '2', '3', '4', '5', '6', '7', '3', '4', '5', '6', '7', '8', '9', '1', '2', '6', '7', '8', '9', '1', '2', '3', '4', '5', '9', '1', '2', '3', '4', '5', '6', '7', '8']

/-- The puzzle parsed from `rectInput`. -/
def rectPuzzle : SudokuPuzzle := (SudokuPuzzle.init rectInput).toOption.getD ⟨[]⟩

/-- The state of `rectPuzzle` after the first outer corner scan of the
rectangle strategy (top-left corner at flat index 0); all later outer scans
leave it unchanged. -/
def rectQ1 : SudokuPuzzle :=
  ⟨[SudokuCell.mk 1 1 0 [1, 2, 3, 4, 5, 6, 7, 8, 9],
   SudokuCell.mk 1 2 2 [],
   SudokuCell.mk 1 3 3 [],
   SudokuCell.mk 1 4 0 [1, 2, 3, 4, 5, 6, 7, 8, 9],
   SudokuCell.mk 1 5 5 [],
   SudokuCell.mk 1 6 6 [],
   SudokuCell.mk 1 7 7 [],
   SudokuCell.mk 1 8 8 [],
   SudokuCell.mk 1 9 9 [],
   SudokuCell.mk 2 1 0 [1, 2, 3, 4, 5, 6, 7, 8, 9],
   SudokuCell.mk 2 2 5 [],
   SudokuCell.mk 2 3 6 [],
   SudokuCell.mk 2 4 0 [1, 2, 3, 4, 5, 6, 7, 8, 9],
   SudokuCell.mk 2 5 8 [],
   SudokuCell.mk 2 6 9 [],
   SudokuCell.mk 2 7 1 [],
   SudokuCell.mk 2 8 2 [],
   SudokuCell.mk 2 9 3 [],
   SudokuCell.mk 3 1 7 [],
   SudokuCell.mk 3 2 8 [8],
   SudokuCell.mk 3 3 9 [9],
   SudokuCell.mk 3 4 1 [],
   SudokuCell.mk 3 5 2 [2],
   SudokuCell.mk 3 6 3 [3],
   SudokuCell.mk 3 7 4 [4],
   SudokuCell.mk 3 8 5 [5],
   SudokuCell.mk 3 9 6 [6],
   SudokuCell.mk 4 1 2 [],
   SudokuCell.mk 4 2 3 [3],
   SudokuCell.mk 4 3 4 [4],
   SudokuCell.mk 4 4 5 [],
   SudokuCell.mk 4 5 6 [6],
   SudokuCell.mk 4 6 7 [7],
   SudokuCell.mk 4 7 8 [8],
   SudokuCell.mk 4 8 9 [9],
   SudokuCell.mk 4 9 1 [1],
   SudokuCell.mk 5 1 5 [],
   SudokuCell.mk 5 2 6 [6],
   SudokuCell.mk 5 3 7 [7],
   SudokuCell.mk 5 4 8 [],
   SudokuCell.mk 5 5 9 [9],
   SudokuCell.mk 5 6 1 [1],
   SudokuCell.mk 5 7 2 [2],
   SudokuCell.mk 5 8 3 [3],
   SudokuCell.mk 5 9 4 [4],
   SudokuCell.mk 6 1 8 [],
   SudokuCell.mk 6 2 9 [9],
   SudokuCell.mk 6 3 1 [1],
   SudokuCell.mk 6 4 2 [],
   SudokuCell.mk 6 5 3 [3],
   SudokuCell.mk 6 6 4 [4],
   SudokuCell.mk 6 7 5 [5],
   SudokuCell.mk 6 8 6 [6],
   SudokuCell.mk 6 9 7 [7],
   SudokuCell.mk 7 1 3 [],
   SudokuCell.mk 7 2 4 [4],
   SudokuCell.mk 7 3 5 [5],
   SudokuCell.mk 7 4 6 [],
   SudokuCell.mk 7 5 7 [7],
   SudokuCell.mk 7 6 8 [8],
   SudokuCell.mk 7 7 9 [9],
   SudokuCell.mk 7 8 1 [1],
   SudokuCell.mk 7 9 2 [2],
   SudokuCell.mk 8 1 6 [],
   SudokuCell.mk 8 2 7 [7],
   SudokuCell.mk 8 3 8 [8],
   SudokuCell.mk 8 4 9 [],
   SudokuCell.mk 8 5 1 [1],
   SudokuCell.mk 8 6 2 [2],
   SudokuCell.mk 8 7 3 [3],
   SudokuCell.mk 8 8 4 [4],
   SudokuCell.mk 8 9 5 [5],
   SudokuCell.mk 9 1 9 [],
   SudokuCell.mk 9 2 1 [1],
   SudokuCell.mk 9 3 2 [2],
   SudokuCell.mk 9 4 3 [],
   SudokuCell.mk 9 5 4 [4],
   SudokuCell.mk 9 6 5 [5],
   SudokuCell.mk 9 7 6 [6],
   SudokuCell.mk 9 8 7 [7],
   SudokuCell.mk 9 9 8 [8]]⟩

/-- C9: for 1-based row and column ids in 1..9, `to_box_id` returns the formula
value `((row-1) div 3)*3 + ((col-1) div 3) + 1` without raising (the defensive
`OutOfRange` branch is unreachable), the result lies in 1..9, and in particular
`to_box_id 1 1 = 1`, `to_box_id 9 9 = 9`, `to_box_id 4 7 = 6`. -/
theorem to_box_id_spec (r c : Nat) (h1 : 1 ≤ r) (h2 : r ≤ 9) (h3 : 1 ≤ c) (h4 : c ≤ 9) :
    to_box_id_checked r c = .ok ((r - 1) / 3 * 3 + (c - 1) / 3 + 1) ∧
    1 ≤ to_box_id r c ∧ to_box_id r c ≤ 9 ∧
    to_box_id 1 1 = 1 ∧ to_box_id 9 9 = 9 ∧ to_box_id 4 7 = 6 := by
  interval_cases r <;> interval_cases c <;> exact ⟨rfl, by decide⟩

/-- Witness for `to_box_id_spec` at row 4, column 7. -/
theorem to_box_id_spec_witness :
    to_box_id_checked 4 7 = .ok ((4 - 1) / 3 * 3 + (7 - 1) / 3 + 1) ∧
    1 ≤ to_box_id 4 7 ∧ to_box_id 4 7 ≤ 9 ∧
    to_box_id 1 1 = 1 ∧ to_box_id 9 9 = 9 ∧ to_box_id 4 7 = 6 :=
  to_box_id_spec 4 7 (by decide) (by decide) (by decide) (by decide)

/-- C7 counterexample: constructing a cell with the out-of-range initial value
10 does not raise `InvalidValue`; it succeeds and yields value 10 with
candidate list `[10]` (the constructor performs only a type check). -/
theorem cell_init_out_of_range_counterexample :
    SudokuCell.init 1 1 10 =
      { row_id := 1, col_id := 1, value := 10, candidates := [10] } := by
  decide

/-- C7 amended: cell construction succeeds for every integer initial value
(no range validation); value 0 yields an unsolved cell with candidates 1..9,
and any nonzero value `v` (inside or outside 1..9) yields value `v` with
candidates `[v]`. -/
theorem cell_init_spec (r c : Nat) (v : Int) :
    (v = 0 → SudokuCell.init r c v =
      { row_id := r, col_id := c, value := 0, candidates := DEFAULT_POSSIBLE_CELL_VALUE }) ∧
    (v ≠ 0 → SudokuCell.init r c v =
      { row_id := r, col_id := c, value := v, candidates := [v] }) := by
  constructor <;> intro h <;> simp [SudokuCell.init, NO_SOLUTION_VALUE, h]

/-- Witness for `cell_init_spec` at values 0 and 7. -/
theorem cell_init_spec_witness :
    SudokuCell.init 2 3 0 =
      { row_id := 2, col_id := 3, value := 0, candidates := DEFAULT_POSSIBLE_CELL_VALUE } ∧
    SudokuCell.init 2 3 7 =
      { row_id := 2, col_id := 3, value := 7, candidates := [7] } :=
  ⟨(cell_init_spec 2 3 0).1 rfl, (cell_init_spec 2 3 7).2 (by decide)⟩

/-- C10: removing the sole candidate of a cell leaves the candidate list empty
and the stored value unchanged: no auto-promotion fires (it requires exactly
one remaining candidate) and no error is raised. -/
theorem remove_candidate_singleton_empties (c : SudokuCell) (v : Int)
    (h : c.candidates = [v]) :
    (c.remove_candidate v).candidates = [] ∧ (c.remove_candidate v).value = c.value := by
  simp [SudokuCell.remove_candidate, h]

/-- Witness for `remove_candidate_singleton_empties` on a solved cell holding
5. -/
theorem remove_candidate_singleton_empties_witness :
    ((SudokuCell.mk 1 1 5 [5]).remove_candidate 5).candidates = [] ∧
    ((SudokuCell.mk 1 1 5 [5]).remove_candidate 5).value = (SudokuCell.mk 1 1 5 [5]).value :=
  remove_candidate_singleton_empties (SudokuCell.mk 1 1 5 [5]) 5 rfl

/-- C5 counterexample: constructing a solver with an empty strategy list does
not fail (the constructor merely stores the list); the error surfaces only
when `solve` is called. -/
theorem solver_empty_construction_counterexample :
    SudokuSolver.init_checked [] = .ok ⟨[]⟩ ∧
    SudokuSolver.solve ⟨[]⟩ ⟨[]⟩ = .error "No solving strategies provided." := by
  constructor <;> rfl

/-- C5 amended: solver construction succeeds for every strategy list, empty
included; the empty-list configuration error is raised by `solve` (before any
strategy is applied), and `solve` with a non-empty list returns a puzzle. -/
theorem solver_configuration_spec (strategies : List SolvingStrategy) (p : SudokuPuzzle) :
    SudokuSolver.init_checked strategies = .ok ⟨strategies⟩ ∧
    (strategies = [] →
      SudokuSolver.solve ⟨strategies⟩ p = .error "No solving strategies provided.") ∧
    (strategies ≠ [] →
      SudokuSolver.solve ⟨strategies⟩ p = .ok (solveLoop strategies p)) := by
  refine ⟨rfl, ?_, ?_⟩ <;> intro h <;>
    simp [SudokuSolver.solve, List.length_eq_zero, h]

/-- Witness for `solver_configuration_spec` with the empty and a singleton
strategy list. -/
theorem solver_configuration_spec_witness :
    SudokuSolver.solve ⟨[]⟩ ⟨[]⟩ = .error "No solving strategies provided." ∧
    SudokuSolver.solve ⟨[SolvingStrategy.uniqueStrategy]⟩ ⟨[]⟩ =
      .ok (solveLoop [SolvingStrategy.uniqueStrategy] ⟨[]⟩) :=
  ⟨(solver_configuration_spec [] ⟨[]⟩).2.1 rfl,
   (solver_configuration_spec [SolvingStrategy.uniqueStrategy] ⟨[]⟩).2.2 (by decide)⟩

/-- Reading position `k` succeeds exactly when it is in range. -/
theorem getCharAt_ok_iff (s : List Char) (k : Nat) :
    (∃ c, getCharAt s k = .ok c) ↔ k < s.length := by
  unfold getCharAt
  by_cases hk : k < s.length <;> simp [hk]

/-- `int()` on one character succeeds exactly on Unicode decimal digits. -/
theorem charToCellValue_ok_iff (c : Char) :
    (∃ v, charToCellValue c = .ok v) ↔ isPyDigit c = true := by
  unfold isPyDigit
  cases hf : ndDigitRangeStarts.find?
      (fun start => decide (start ≤ c.toNat ∧ c.toNat < start + 10)) with
  | none =>
    have hval : charToCellValue c = .error "ValueError: invalid literal for int" := by
      unfold charToCellValue; rw [hf]
    simp [hval]
  | some s0 =>
    have hval : charToCellValue c = .ok ((c.toNat : Int) - (s0 : Int)) := by
      unfold charToCellValue; rw [hf]
    simp [hval]

/-- A non-ASCII decimal digit is accepted with its decimal value, as by
`int()`: the Arabic-Indic five (U+0665) parses to 5 and the fullwidth zero
(U+FF10) to 0. -/
theorem charToCellValue_nonascii :
    charToCellValue '٥' = .ok 5 ∧ charToCellValue '０' = .ok 0 := by
  exact ⟨rfl, rfl⟩

/-- The grid-construction loop succeeds exactly when every position it visits
is inside the string and holds a Unicode decimal digit. -/
theorem setup_grid_go_ok_iff (s : List Char) (ks : List Nat) :
    (∃ cs, setup_grid_go s ks = .ok cs) ↔
    ∀ k ∈ ks, k < s.length ∧ isPyDigit (s.getD k ' ') = true := by
  induction ks with
  | nil => simp [setup_grid_go]
  | cons k ks ih =>
    by_cases hk : k < s.length
    · have hchar : getCharAt s k = .ok (s.get ⟨k, hk⟩) := by simp [getCharAt, hk]
      have hgetD : s.getD k ' ' = s.get ⟨k, hk⟩ := by
        simp [List.getD_eq_getElem?_getD, List.getElem?_eq_getElem hk]
      by_cases hd : isPyDigit (s.get ⟨k, hk⟩) = true
      · have hd' : (ndDigitRangeStarts.find? (fun start =>
            decide (start ≤ (s.get ⟨k, hk⟩).toNat ∧
              (s.get ⟨k, hk⟩).toNat < start + 10))).isSome = true := hd
        obtain ⟨s0, hs0⟩ := Option.isSome_iff_exists.1 hd'
        have hval : charToCellValue (s.get ⟨k, hk⟩) =
            .ok (((s.get ⟨k, hk⟩).toNat : Int) - (s0 : Int)) := by
          unfold charToCellValue; rw [hs0]
        cases hgo : setup_grid_go s ks with
        | error e =>
          have hno : ¬ ∃ cs, setup_grid_go s ks = .ok cs := by simp [hgo]
          rw [ih] at hno
          simp only [setup_grid_go, hchar, hval, hgo]
          simp only [List.mem_cons, forall_eq_or_imp]
          constructor
          · rintro ⟨cs, hcs⟩; cases hcs
          · rintro ⟨_, hrest⟩; exact absurd hrest hno
        | ok rest =>
          have hrest : ∀ a ∈ ks, a < s.length ∧ isPyDigit (s.getD a ' ') = true := by
            rw [← ih]; exact ⟨rest, hgo⟩
          simp only [setup_grid_go, hchar, hval, hgo]
          simp only [List.mem_cons, forall_eq_or_imp]
          constructor
          · intro _
            exact ⟨⟨hk, by rw [hgetD]; exact hd⟩, hrest⟩
          · intro _; exact ⟨_, rfl⟩
      · have hnone : ndDigitRangeStarts.find? (fun start =>
            decide (start ≤ (s.get ⟨k, hk⟩).toNat ∧
              (s.get ⟨k, hk⟩).toNat < start + 10)) = none := by
          cases hfind : ndDigitRangeStarts.find? (fun start =>
              decide (start ≤ (s.get ⟨k, hk⟩).toNat ∧
                (s.get ⟨k, hk⟩).toNat < start + 10)) with
          | none => rfl
          | some s0 =>
            exact absurd (show isPyDigit (s.get ⟨k, hk⟩) = true by
              unfold isPyDigit; rw [hfind]; rfl) hd
        have hval : charToCellValue (s.get ⟨k, hk⟩) =
            .error "ValueError: invalid literal for int" := by
          unfold charToCellValue; rw [hnone]
        simp only [setup_grid_go, hchar, hval]
        simp only [List.mem_cons, forall_eq_or_imp]
        constructor
        · rintro ⟨cs, hcs⟩; cases hcs
        · rintro ⟨⟨_, h1⟩, _⟩; rw [hgetD] at h1; exact (hd h1).elim
    · have hchar : getCharAt s k = .error "IndexError: string index out of range" := by
        simp [getCharAt, hk]
      simp only [setup_grid_go, hchar]
      simp only [List.mem_cons, forall_eq_or_imp]
      constructor
      · rintro ⟨cs, hcs⟩; cases hcs
      · rintro ⟨⟨h1, _⟩, _⟩; exact (hk h1).elim

/-- C6 counterexample: an 82-character all-digit string does not fail —
construction succeeds, silently ignoring the extra character — although the
claim requires `InvalidInput` for every string whose length is not 81. -/
theorem puzzle_init_length82_counterexample :
    ∃ p, SudokuPuzzle.init (List.replicate 82 '0') = .ok p := by
  have hall : ∀ k ∈ List.range 81,
      k < (List.replicate 82 '0').length ∧
      isPyDigit ((List.replicate 82 '0').getD k ' ') = true := by decide
  rcases (setup_grid_go_ok_iff (List.replicate 82 '0') (List.range 81)).2 hall with ⟨cs, hcs⟩
  exact ⟨⟨cs⟩, by rw [SudokuPuzzle.init, setup_grid, hcs]; rfl⟩

/-- C6 amended: puzzle construction from a string succeeds iff the string has
at least 81 characters and each of its first 81 characters is a Unicode
decimal digit — the characters `int()` accepts: ASCII `'0'..'9'` and every
other category-Nd digit such as Arabic-Indic or fullwidth digits (so
exactly-81-digit strings succeed as claimed, but longer digit strings also
succeed, with characters past position 80 ignored; short strings and
non-digit characters among the first 81 fail). -/
theorem puzzle_init_ok_iff (s : List Char) :
    (∃ p, SudokuPuzzle.init s = .ok p) ↔
    (81 ≤ s.length ∧ ∀ k < 81, isPyDigit (s.getD k ' ') = true) := by
  have hmain := setup_grid_go_ok_iff s (List.range 81)
  have hinit : (∃ p, SudokuPuzzle.init s = .ok p) ↔ ∃ cs, setup_grid s = .ok cs := by
    unfold SudokuPuzzle.init
    cases h : setup_grid s with
    | error e => simp [h, Except.map]
    | ok cs => simp [h, Except.map]
  rw [hinit]
  rw [show setup_grid s = setup_grid_go s (List.range 81) from rfl, hmain]
  constructor
  · intro h
    refine ⟨?_, fun k hk => (h k (List.mem_range.2 hk)).2⟩
    have := (h 80 (by decide)).1
    omega
  · rintro ⟨hlen, hdig⟩ k hk
    have hk81 := List.mem_range.1 hk
    exact ⟨by omega, hdig k hk81⟩

/-- An 81-character string of Arabic-Indic fives (U+0665) constructs a puzzle:
`int()` accepts every Unicode decimal digit, not only ASCII `'0'..'9'`. -/
theorem puzzle_init_unicode_digits :
    ∃ p, SudokuPuzzle.init (List.replicate 81 '٥') = .ok p := by
  have hall : ∀ k ∈ List.range 81,
      k < (List.replicate 81 '٥').length ∧
      isPyDigit ((List.replicate 81 '٥').getD k ' ') = true := by decide
  rcases (setup_grid_go_ok_iff (List.replicate 81 '٥') (List.range 81)).2 hall
    with ⟨cs, hcs⟩
  exact ⟨⟨cs⟩, by rw [SudokuPuzzle.init, setup_grid, hcs]; rfl⟩

/-- `getD` through a `map`, at an in-range index. -/
theorem getD_map_lt {α β : Type} (f : α → β) (l : List α) (k : Nat) (d : β) (d0 : α)
    (hk : k < l.length) :
    (l.map f).getD k d = f (l.getD k d0) := by
  induction l generalizing k with
  | nil => cases hk
  | cons a as ih =>
    cases k with
    | zero => rfl
    | succ k => exact ih k (by simpa using hk)

/-- `getD` after `set` at the written index. -/
theorem getD_set_self {α : Type} (l : List α) (i : Nat) (x : α) (d : α)
    (h : i < l.length) :
    (l.set i x).getD i d = x := by
  induction l generalizing i with
  | nil => cases h
  | cons a as ih =>
    cases i with
    | zero => rfl
    | succ i => exact ih i (by simpa using h)

/-- `getD` after `set` at a different index. -/
theorem getD_set_ne {α : Type} (l : List α) (i j : Nat) (x : α) (d : α)
    (h : i ≠ j) :
    (l.set i x).getD j d = l.getD j d := by
  induction l generalizing i j with
  | nil => rfl
  | cons a as ih =>
    cases i with
    | zero =>
      cases j with
      | zero => exact absurd rfl h
      | succ j => rfl
    | succ i =>
      cases j with
      | zero => rfl
      | succ j => exact ih i j (by omega)

/-- The index arithmetic behind view aliasing: at every valid position the row,
column and box views select exactly the owning flat index. -/
theorem view_index_arith :
    ∀ r < 9, ∀ c < 9,
      (rowIndices (r + 1)).getD c 0 = gridIndex (r + 1) (c + 1) ∧
      (colIndices (c + 1)).getD r 0 = gridIndex (r + 1) (c + 1) ∧
      (boxIndices (to_box_id (r + 1) (c + 1))).getD (r % 3 * 3 + c % 3) 0 =
        gridIndex (r + 1) (c + 1) ∧
      gridIndex (r + 1) (c + 1) < 81 ∧
      (rowIndices (r + 1)).length = 9 ∧
      (colIndices (c + 1)).length = 9 ∧
      (boxIndices (to_box_id (r + 1) (c + 1))).length = 9 := by decide

/-- C8: at every position `(r, c)` with `r, c` in 1..9, the cell exposed by row
`r` (offset `c-1`), by column `c` (offset `r-1`), and by box `to_box_id r c`
(offset `((r-1) mod 3)*3 + (c-1) mod 3`) is the cell the grid owns at that
position, and a mutation performed at that position is observed identically
through all three views and the grid — the views alias one piece of state. -/
theorem view_aliasing (p : SudokuPuzzle) (x : SudokuCell) (r c : Nat)
    (hlen : p.cells.length = 81)
    (h1 : 1 ≤ r) (h2 : r ≤ 9) (h3 : 1 ≤ c) (h4 : c ≤ 9) :
    ((p.rowGroup r).getD (c - 1) defaultCell = p.getCell r c ∧
     (p.colGroup c).getD (r - 1) defaultCell = p.getCell r c ∧
     (p.boxGroup (to_box_id r c)).getD ((r - 1) % 3 * 3 + (c - 1) % 3) defaultCell =
       p.getCell r c) ∧
    ((p.setIdx (gridIndex r c) x).rowGroup r).getD (c - 1) defaultCell = x ∧
    ((p.setIdx (gridIndex r c) x).colGroup c).getD (r - 1) defaultCell = x ∧
    ((p.setIdx (gridIndex r c) x).boxGroup (to_box_id r c)).getD
      ((r - 1) % 3 * 3 + (c - 1) % 3) defaultCell = x ∧
    (p.setIdx (gridIndex r c) x).getCell r c = x := by
  obtain ⟨hrow, hcol, hbox, hlt, hrl, hcl, hbl⟩ :=
    view_index_arith (r - 1) (by omega) (c - 1) (by omega)
  simp only [show r - 1 + 1 = r from by omega, show c - 1 + 1 = c from by omega]
    at hrow hcol hbox hlt hrl hcl hbl
  have hc1 : c - 1 < (rowIndices r).length := by omega
  have hr1 : r - 1 < (colIndices c).length := by omega
  have hb1 : (r - 1) % 3 * 3 + (c - 1) % 3 < (boxIndices (to_box_id r c)).length := by
    have hm1 : (r - 1) % 3 < 3 := Nat.mod_lt _ (by omega)
    have hm2 : (c - 1) % 3 < 3 := Nat.mod_lt _ (by omega)
    omega
  have hset : (p.setIdx (gridIndex r c) x).getIdx (gridIndex r c) = x := by
    unfold SudokuPuzzle.setIdx SudokuPuzzle.getIdx
    exact getD_set_self _ _ _ _ (by omega)
  refine ⟨⟨?_, ?_, ?_⟩, ?_, ?_, ?_, ?_⟩
  · rw [SudokuPuzzle.rowGroup, getD_map_lt _ _ _ _ 0 hc1, hrow]; rfl
  · rw [SudokuPuzzle.colGroup, getD_map_lt _ _ _ _ 0 hr1, hcol]; rfl
  · rw [SudokuPuzzle.boxGroup, getD_map_lt _ _ _ _ 0 hb1, hbox]; rfl
  · rw [SudokuPuzzle.rowGroup, getD_map_lt _ _ _ _ 0 hc1, hrow, hset]
  · rw [SudokuPuzzle.colGroup, getD_map_lt _ _ _ _ 0 hr1, hcol, hset]
  · rw [SudokuPuzzle.boxGroup, getD_map_lt _ _ _ _ 0 hb1, hbox, hset]
  · exact hset

/-- Witness for `view_aliasing` at position (4, 7) of an 81-cell puzzle. -/
theorem view_aliasing_witness :
    ((blankPuzzle.rowGroup 4).getD (7 - 1) defaultCell = blankPuzzle.getCell 4 7 ∧
     (blankPuzzle.colGroup 7).getD (4 - 1) defaultCell = blankPuzzle.getCell 4 7 ∧
     (blankPuzzle.boxGroup (to_box_id 4 7)).getD ((4 - 1) % 3 * 3 + (7 - 1) % 3) defaultCell =
       blankPuzzle.getCell 4 7) ∧
    ((blankPuzzle.setIdx (gridIndex 4 7) witnessCell).rowGroup 4).getD (7 - 1) defaultCell =
      witnessCell ∧
    ((blankPuzzle.setIdx (gridIndex 4 7) witnessCell).colGroup 7).getD (4 - 1) defaultCell =
      witnessCell ∧
    ((blankPuzzle.setIdx (gridIndex 4 7) witnessCell).boxGroup (to_box_id 4 7)).getD
      ((4 - 1) % 3 * 3 + (7 - 1) % 3) defaultCell = witnessCell ∧
    (blankPuzzle.setIdx (gridIndex 4 7) witnessCell).getCell 4 7 = witnessCell :=
  view_aliasing blankPuzzle witnessCell 4 7
    (by decide) (by decide) (by decide) (by decide) (by decide)

/-- `getD` after `set` at the written index, when the write is out of range:
the list is unchanged. -/
theorem set_eq_of_length_le {α : Type} (l : List α) (i : Nat) (x : α)
    (h : l.length ≤ i) : l.set i x = l := by
  induction l generalizing i with
  | nil => rfl
  | cons a as ih =>
    cases i with
    | zero => simp at h
    | succ i => simp only [List.set]; rw [ih i (by simpa using h)]

/-- Reading another index after a write. -/
theorem getIdx_setIdx_ne (p : SudokuPuzzle) (i j : Nat) (c : SudokuCell)
    (h : i ≠ j) : (p.setIdx i c).getIdx j = p.getIdx j :=
  getD_set_ne _ _ _ _ _ h

/-- Reading the written index: either the write landed or it was out of range
and the puzzle is unchanged. -/
theorem getIdx_setIdx_self_or (p : SudokuPuzzle) (i : Nat) (c : SudokuCell) :
    (p.setIdx i c).getIdx i = c ∨ p.setIdx i c = p := by
  by_cases h : i < p.cells.length
  · exact Or.inl (getD_set_self _ _ _ _ h)
  · right
    unfold SudokuPuzzle.setIdx
    rw [set_eq_of_length_le _ _ _ (by omega)]

/-- The candidate list after `remove_candidate`: the erase happens exactly when
the value was present, in both promotion branches. -/
theorem remove_candidate_candidates (c : SudokuCell) (v : Int) :
    (c.remove_candidate v).candidates =
      if v ∈ c.candidates then c.candidates.erase v else c.candidates := by
  unfold SudokuCell.remove_candidate
  by_cases h1 : (if v ∈ c.candidates then c.candidates.erase v else c.candidates).length = 1 <;>
    simp [h1]

/-- Removing a candidate never lengthens the candidate list. -/
theorem remove_candidate_length_le (c : SudokuCell) (v : Int) :
    (c.remove_candidate v).candidates.length ≤ c.candidates.length := by
  rw [remove_candidate_candidates]
  by_cases hm : v ∈ c.candidates
  · have he : (c.candidates.erase v).length = c.candidates.length - 1 :=
      List.length_erase_of_mem hm
    simp [hm, he]
  · simp [hm]

/-- Keeping only one (present) candidate never lengthens the candidate list. -/
theorem remove_all_except_length_le (c : SudokuCell) (v : Int) :
    (c.remove_all_candidates_except v).candidates.length ≤ c.candidates.length := by
  unfold SudokuCell.remove_all_candidates_except
  by_cases hm : v ∈ c.candidates
  · have hpos : 0 < c.candidates.length := List.length_pos.2 (List.ne_nil_of_mem hm)
    simp [hm]; omega
  · simp [hm]

/-- Replacing one element by one whose measure is no larger does not increase
the mapped sum. -/
theorem sum_map_set_le {α : Type} (f : α → Nat) (l : List α) (i : Nat) (x : α) (d : α)
    (h : f x ≤ f (l.getD i d)) :
    ((l.set i x).map f).sum ≤ (l.map f).sum := by
  induction l generalizing i with
  | nil => simp
  | cons a as ih =>
    cases i with
    | zero => simp only [List.set, List.map, List.sum_cons]; have := h; simp at this ⊢; omega
    | succ i =>
      simp only [List.set, List.map, List.sum_cons]
      have := ih i (by simpa using h)
      omega

/-- Writing a cell with no more candidates than the one it replaces does not
increase the total candidate count. -/
theorem count_setIdx_le (p : SudokuPuzzle) (i : Nat) (c : SudokuCell)
    (h : c.candidates.length ≤ (p.getIdx i).candidates.length) :
    countTotalCandidates (p.setIdx i c) ≤ countTotalCandidates p := by
  unfold countTotalCandidates SudokuPuzzle.setIdx
  exact sum_map_set_le (fun c => c.candidates.length) p.cells i c defaultCell h

/-- `remove_candidate` at any index is count-non-increasing. -/
theorem doRemoveCandidate_count_le (p : SudokuPuzzle) (i : Nat) (v : Int) :
    countTotalCandidates (doRemoveCandidate p i v) ≤ countTotalCandidates p :=
  count_setIdx_le p i _ (remove_candidate_length_le _ _)

/-- `remove_all_candidates_except` at any index is count-non-increasing. -/
theorem doRemoveAllExcept_count_le (p : SudokuPuzzle) (i : Nat) (v : Int) :
    countTotalCandidates (doRemoveAllExcept p i v) ≤ countTotalCandidates p :=
  count_setIdx_le p i _ (remove_all_except_length_le _ _)

/-- Folding count-non-increasing steps is count-non-increasing. -/
theorem foldl_count_le {α : Type} (f : SudokuPuzzle → α → SudokuPuzzle) (l : List α)
    (hf : ∀ q a, a ∈ l → countTotalCandidates (f q a) ≤ countTotalCandidates q) :
    ∀ p, countTotalCandidates (l.foldl f p) ≤ countTotalCandidates p := by
  induction l with
  | nil => intro p; simp
  | cons a as ih =>
    intro p
    calc countTotalCandidates (as.foldl f (f p a)) ≤ countTotalCandidates (f p a) :=
          ih (fun q b hb => hf q b (List.mem_cons_of_mem _ hb)) (f p a)
      _ ≤ countTotalCandidates p := hf p a (List.mem_cons_self _ _)

/-- Folding invariant-preserving steps preserves the invariant. -/
theorem foldl_preserves {α : Type} (P : SudokuPuzzle → Prop)
    (f : SudokuPuzzle → α → SudokuPuzzle) (l : List α)
    (hf : ∀ q a, a ∈ l → P q → P (f q a)) :
    ∀ p, P p → P (l.foldl f p) := by
  induction l with
  | nil => intro p hp; exact hp
  | cons a as ih =>
    intro p hp
    exact ih (fun q b hb => hf q b (List.mem_cons_of_mem _ hb)) (f p a)
      (hf p a (List.mem_cons_self _ _) hp)

/-- One prune visit is count-non-increasing. -/
theorem pruneStep_count_le (v : Int) (q : SudokuPuzzle) (j : Nat) :
    countTotalCandidates (pruneStep v q j) ≤ countTotalCandidates q := by
  rw [pruneStep]
  split
  · exact count_setIdx_le q j _ (remove_candidate_length_le _ _)
  · exact Nat.le_refl _

/-- Pruning a solved value from a cell's three units is count-non-increasing. -/
theorem prune_count_le (p : SudokuPuzzle) (i : Nat) :
    countTotalCandidates (prune_solved_value_from_units_containing_cell p i) ≤
      countTotalCandidates p := by
  rw [prune_solved_value_from_units_containing_cell]
  split
  · calc countTotalCandidates _ ≤ _ :=
          foldl_count_le _ _ (fun q a _ => pruneStep_count_le _ q a) _
      _ ≤ _ := foldl_count_le _ _ (fun q a _ => pruneStep_count_le _ q a) _
      _ ≤ _ := foldl_count_le _ _ (fun q a _ => pruneStep_count_le _ q a) _
  · exact Nat.le_refl _

/-- The Unique strategy is count-non-increasing. -/
theorem applyUnique_count_le (p : SudokuPuzzle) :
    countTotalCandidates (applyUnique p) ≤ countTotalCandidates p := by
  unfold applyUnique
  calc countTotalCandidates _ ≤ _ := by
        refine foldl_count_le _ _ (fun q u _ => ?_) _
        unfold applyUniqueUnit
        refine foldl_count_le _ _ (fun q1 vi _ => ?_) q
        calc countTotalCandidates _ ≤ _ := prune_count_le _ _
          _ ≤ _ := doRemoveAllExcept_count_le _ _ _
    _ ≤ _ := foldl_count_le _ _ (fun q i _ => prune_count_le q i) p

/-- Membership in the per-unit occurrence list. -/
theorem occList_mem (p : SudokuPuzzle) (unit : List Nat) (v : Int) (i : Nat) :
    (v, i) ∈ occList p unit ↔ i ∈ unit ∧ v ∈ (p.getIdx i).candidates := by
  simp only [occList, List.mem_flatMap, List.mem_map, Prod.mk.injEq]
  constructor
  · rintro ⟨a, ha, w, hw, rfl, rfl⟩; exact ⟨ha, hw⟩
  · rintro ⟨hi, hv⟩; exact ⟨i, hi, v, hv, rfl, rfl⟩

/-- The cell list attached to a key of `candidate_cell_map` consists exactly of
the unit cells currently listing that candidate. -/
theorem candidateCellsMap_cells (p : SudokuPuzzle) (unit : List Nat) (v : Int)
    (cs : List Nat) (h : (v, cs) ∈ candidateCellsMap p unit) :
    (∀ i ∈ cs, i ∈ unit ∧ v ∈ (p.getIdx i).candidates) ∧
    (∀ i ∈ unit, v ∈ (p.getIdx i).candidates → i ∈ cs) := by
  unfold candidateCellsMap at h
  rcases List.mem_map.1 h with ⟨key, hkey, heq⟩
  rw [Prod.mk.injEq] at heq
  obtain ⟨rfl, rfl⟩ := heq
  constructor
  · intro i hi
    rcases List.mem_map.1 hi with ⟨⟨w, j⟩, hin, rfl⟩
    have hmem := List.mem_filter.1 hin
    have hw : w = key := by simpa using hmem.2
    subst hw
    exact (occList_mem p unit w j).1 hmem.1
  · intro i hiu hvc
    refine List.mem_map.2 ⟨(key, i), List.mem_filter.2 ⟨?_, by simp⟩, rfl⟩
    exact (occList_mem p unit key i).2 ⟨hiu, hvc⟩

/-- `set_candidates` stores exactly the given list. -/
theorem set_candidates_candidates (c : SudokuCell) (cs : List Int) :
    (c.set_candidates cs).candidates = cs := by
  unfold SudokuCell.set_candidates
  split <;> rfl

/-- A list containing two distinct values has length at least two. -/
theorem two_mem_le_length {α : Type} [DecidableEq α] {a b : α} {l : List α} (hab : a ≠ b)
    (ha : a ∈ l) (hb : b ∈ l) : 2 ≤ l.length := by
  have hsub : ({a, b} : Finset α) ⊆ l.toFinset := by
    intro x hx
    rcases Finset.mem_insert.1 hx with rfl | hx
    · exact List.mem_toFinset.2 ha
    · rw [Finset.mem_singleton] at hx; subst hx; exact List.mem_toFinset.2 hb
  have hcard : ({a, b} : Finset α).card = 2 := by
    rw [Finset.card_insert_of_not_mem (by simp [hab]), Finset.card_singleton]
  calc 2 = ({a, b} : Finset α).card := hcard.symm
    _ ≤ l.toFinset.card := Finset.card_le_card hsub
    _ ≤ l.length := l.toFinset_card_le

/-- A list containing three pairwise distinct values has length at least
three. -/
theorem three_mem_le_length {α : Type} [DecidableEq α] {a b c : α} {l : List α}
    (hab : a ≠ b) (hac : a ≠ c) (hbc : b ≠ c)
    (ha : a ∈ l) (hb : b ∈ l) (hc : c ∈ l) : 3 ≤ l.length := by
  have hsub : ({a, b, c} : Finset α) ⊆ l.toFinset := by
    intro x hx
    rcases Finset.mem_insert.1 hx with rfl | hx
    · exact List.mem_toFinset.2 ha
    · rcases Finset.mem_insert.1 hx with rfl | hx
      · exact List.mem_toFinset.2 hb
      · rw [Finset.mem_singleton] at hx; subst hx; exact List.mem_toFinset.2 hc
  have hcard : ({a, b, c} : Finset α).card = 3 := by
    rw [Finset.card_insert_of_not_mem (by simp [hab, hac]),
      Finset.card_insert_of_not_mem (by simp [hbc]), Finset.card_singleton]
  calc 3 = ({a, b, c} : Finset α).card := hcard.symm
    _ ≤ l.toFinset.card := Finset.card_le_card hsub
    _ ≤ l.length := l.toFinset_card_le

/-- A `set_candidates` to `n` fresh candidates on a cell that held at least `n`
at snapshot time preserves the invariant. -/
theorem doSetCandidates_snap_inv (n : Nat) (q q' : SudokuPuzzle) (i : Nat)
    (cs : List Int) (hlen : cs.length = n)
    (hge : n ≤ (q.getIdx i).candidates.length) (hI : SnapLenInv n q q') :
    SnapLenInv n q (doSetCandidates q' i cs) := by
  obtain ⟨hc, hidx⟩ := hI
  have hcands : ((q'.getIdx i).set_candidates cs).candidates = cs :=
    set_candidates_candidates _ _
  have hcur : n ≤ (q'.getIdx i).candidates.length := by
    rcases hidx i with h | h
    · rw [h]; exact hge
    · omega
  unfold doSetCandidates
  constructor
  · calc countTotalCandidates (q'.setIdx i ((q'.getIdx i).set_candidates cs)) ≤
          countTotalCandidates q' := by
          refine count_setIdx_le _ _ _ ?_
          rw [hcands, hlen]; exact hcur
      _ ≤ countTotalCandidates q := hc
  · intro j
    by_cases hij : i = j
    · subst hij
      rcases getIdx_setIdx_self_or q' i ((q'.getIdx i).set_candidates cs) with h | h
      · right; rw [h, hcands, hlen]
      · rw [h]; exact hidx i
    · rw [getIdx_setIdx_ne _ _ _ _ hij]; exact hidx j

/-- The hidden-pair pass over one unit is count-non-increasing. -/
theorem applyHiddenPairUnit_count_le (q : SudokuPuzzle) (unit : List Nat) :
    countTotalCandidates (applyHiddenPairUnit q unit) ≤ countTotalCandidates q := by
  have main : SnapLenInv 2 q (applyHiddenPairUnit q unit) := by
    unfold applyHiddenPairUnit
    refine foldl_preserves (SnapLenInv 2 q) _ _ ?_ q ⟨Nat.le_refl _, fun i => Or.inl rfl⟩
    intro q1 vc hvc hq1
    refine foldl_preserves (SnapLenInv 2 q) _ _ ?_ q1 hq1
    intro q2 wc hwc hq2
    dsimp only
    split
    · rename_i hcond
      refine foldl_preserves (SnapLenInv 2 q) _ _ ?_ q2 hq2
      intro q3 i hi hq3
      have hvc2 := List.mem_filter.1 hvc
      have hwc2 := List.mem_filter.1 hwc
      have h1 := (candidateCellsMap_cells q unit vc.1 vc.2 hvc2.1).1 i hi
      have h2 := (candidateCellsMap_cells q unit wc.1 wc.2 hwc2.1).1 i (hcond.2 ▸ hi)
      exact doSetCandidates_snap_inv 2 q q3 i [vc.1, wc.1] rfl
        (two_mem_le_length hcond.1 h1.2 h2.2) hq3
    · exact hq2
  exact main.1

/-- The hidden-triplet pass over one unit is count-non-increasing. -/
theorem applyHiddenTripletUnit_count_le (q : SudokuPuzzle) (unit : List Nat) :
    countTotalCandidates (applyHiddenTripletUnit q unit) ≤ countTotalCandidates q := by
  have main : SnapLenInv 3 q (applyHiddenTripletUnit q unit) := by
    unfold applyHiddenTripletUnit
    refine foldl_preserves (SnapLenInv 3 q) _ _ ?_ q ⟨Nat.le_refl _, fun i => Or.inl rfl⟩
    intro q1 vc hvc hq1
    refine foldl_preserves (SnapLenInv 3 q) _ _ ?_ q1 hq1
    intro q2 wc hwc hq2
    refine foldl_preserves (SnapLenInv 3 q) _ _ ?_ q2 hq2
    intro q3 xc hxc hq3
    dsimp only
    split
    · rename_i hcond
      refine foldl_preserves (SnapLenInv 3 q) _ _ ?_ q3 hq3
      intro q4 i hi hq4
      have hvc2 := List.mem_filter.1 hvc
      have hwc2 := List.mem_filter.1 hwc
      have hxc2 := List.mem_filter.1 hxc
      have h1 := (candidateCellsMap_cells q unit vc.1 vc.2 hvc2.1).1 i hi
      have h2 := (candidateCellsMap_cells q unit wc.1 wc.2 hwc2.1).1 i (hcond.2.1 ▸ hi)
      have h3 := (candidateCellsMap_cells q unit xc.1 xc.2 hxc2.1).1 i
        (hcond.2.2 ▸ hcond.2.1 ▸ hi)
      exact doSetCandidates_snap_inv 3 q q4 i [vc.1, wc.1, xc.1] rfl
        (three_mem_le_length hcond.1.1 hcond.1.2.1 hcond.1.2.2 h1.2 h2.2 h3.2) hq4
    · exact hq3
  exact main.1

/-- The hidden-pair strategy is count-non-increasing. -/
theorem applyHiddenPair_count_le (p : SudokuPuzzle) :
    countTotalCandidates (applyHiddenPair p) ≤ countTotalCandidates p := by
  unfold applyHiddenPair
  exact foldl_count_le _ _ (fun q u _ => applyHiddenPairUnit_count_le q u) p

/-- The hidden-triplet strategy is count-non-increasing. -/
theorem applyHiddenTriplet_count_le (p : SudokuPuzzle) :
    countTotalCandidates (applyHiddenTriplet p) ≤ countTotalCandidates p := by
  unfold applyHiddenTriplet
  exact foldl_count_le _ _ (fun q u _ => applyHiddenTripletUnit_count_le q u) p

/-- The naked-pair strategy is count-non-increasing. -/
theorem applyNakedPair_count_le (p : SudokuPuzzle) :
    countTotalCandidates (applyNakedPair p) ≤ countTotalCandidates p := by
  unfold applyNakedPair
  refine foldl_count_le _ _ (fun q u _ => ?_) p
  unfold applyNakedPairUnit
  refine foldl_count_le _ _ (fun q1 ij _ => ?_) q
  dsimp only
  split
  · refine foldl_count_le _ _ (fun q2 j _ => ?_) q1
    dsimp only
    split
    · exact foldl_count_le _ _ (fun q3 v _ => doRemoveCandidate_count_le q3 _ v) q2
    · exact Nat.le_refl _
  · exact Nat.le_refl _

/-- The box-line removal helper is count-non-increasing. -/
theorem lineRemoveOutside_count_le (q : SudokuPuzzle) (line cs : List Nat) (v : Int) :
    countTotalCandidates (lineRemoveOutside q line cs v) ≤ countTotalCandidates q := by
  unfold lineRemoveOutside
  refine foldl_count_le _ _ (fun qq j _ => ?_) q
  dsimp only
  split
  · exact Nat.le_refl _
  · exact doRemoveCandidate_count_le _ _ _

/-- The box-line interpolation strategy is count-non-increasing. -/
theorem applyBoxLineInterpolation_count_le (p : SudokuPuzzle) :
    countTotalCandidates (applyBoxLineInterpolation p) ≤ countTotalCandidates p := by
  unfold applyBoxLineInterpolation
  refine foldl_count_le _ _ (fun q u _ => ?_) p
  unfold applyBoxLineInterpolationBox
  refine foldl_count_le _ _ (fun q1 vc _ => ?_) q
  dsimp only
  split
  · split
    · calc countTotalCandidates _ ≤ _ := lineRemoveOutside_count_le _ _ _ _
        _ ≤ countTotalCandidates q1 := by
          split
          · exact lineRemoveOutside_count_le _ _ _ _
          · exact Nat.le_refl _
    · split
      · exact lineRemoveOutside_count_le _ _ _ _
      · exact Nat.le_refl _
  · exact Nat.le_refl _

/-- The box-line extrapolation strategy is count-non-increasing. -/
theorem applyBoxLineExtrapolation_count_le (p : SudokuPuzzle) :
    countTotalCandidates (applyBoxLineExtrapolation p) ≤ countTotalCandidates p := by
  unfold applyBoxLineExtrapolation
  have hunit : ∀ (q : SudokuPuzzle) (u : List Nat),
      countTotalCandidates (applyBoxLineExtrapolationUnit q u) ≤ countTotalCandidates q := by
    intro q u
    unfold applyBoxLineExtrapolationUnit
    refine foldl_count_le _ _ (fun q1 vc _ => ?_) q
    dsimp only
    split
    · exact lineRemoveOutside_count_le _ _ _ _
    · exact Nat.le_refl _
  calc countTotalCandidates _ ≤ _ :=
        foldl_count_le _ _ (fun q u _ => hunit q u) _
    _ ≤ countTotalCandidates p := foldl_count_le _ _ (fun q u _ => hunit q u) p

/-- One rectangle elimination round is count-non-increasing. -/
theorem rectangleRemovals_count_le (q : SudokuPuzzle) (tlr tlc brr brc : Nat) (v : Int) :
    countTotalCandidates (rectangleRemovals q tlr tlc brr brc v) ≤ countTotalCandidates q := by
  unfold rectangleRemovals
  have hstep : ∀ (qq : SudokuPuzzle) (i j : Nat),
      countTotalCandidates (doRemoveCandidate (doRemoveCandidate qq i v) j v) ≤
        countTotalCandidates qq := by
    intro qq i j
    calc countTotalCandidates _ ≤ _ := doRemoveCandidate_count_le _ _ _
      _ ≤ _ := doRemoveCandidate_count_le _ _ _
  calc countTotalCandidates _ ≤ _ := by
        refine foldl_count_le _ _ (fun qq r _ => ?_) _
        dsimp only
        split
        · exact hstep _ _ _
        · exact Nat.le_refl _
    _ ≤ countTotalCandidates q := by
        refine foldl_count_le _ _ (fun qq c _ => ?_) q
        dsimp only
        split
        · exact hstep _ _ _
        · exact Nat.le_refl _

/-- The rectangle-corner strategy is count-non-increasing. -/
theorem applyRectangleCornerReductions_count_le (p : SudokuPuzzle) :
    countTotalCandidates (applyRectangleCornerReductions p) ≤ countTotalCandidates p := by
  unfold applyRectangleCornerReductions rectangleOuterStep
  refine foldl_count_le _ _ (fun q i _ => ?_) p
  refine foldl_count_le _ _ (fun q1 j _ => ?_) q
  dsimp only
  split
  · exact foldl_count_le _ _ (fun q2 v _ => rectangleRemovals_count_le q2 _ _ _ _ v) q1
  · exact Nat.le_refl _

/-- Shared helper: every one of the seven strategies is count-non-increasing. -/
theorem strategy_apply_count_le (s : SolvingStrategy) (p : SudokuPuzzle) :
    countTotalCandidates (s.apply p) ≤ countTotalCandidates p := by
  cases s
  · exact applyUnique_count_le p
  · exact applyHiddenPair_count_le p
  · exact applyHiddenTriplet_count_le p
  · exact applyNakedPair_count_le p
  · exact applyBoxLineInterpolation_count_le p
  · exact applyBoxLineExtrapolation_count_le p
  · exact applyRectangleCornerReductions_count_le p

/-- C3: `count_total_candidates` never increases from one strategy application
to the next — a single application of any of the seven strategies is
non-increasing, hence so is any finite sequence of applications. -/
theorem strategies_count_monotone :
    (∀ (s : SolvingStrategy) (p : SudokuPuzzle),
      countTotalCandidates (s.apply p) ≤ countTotalCandidates p) ∧
    (∀ (ss : List SolvingStrategy) (p : SudokuPuzzle),
      countTotalCandidates (ss.foldl (fun q t => t.apply q) p) ≤ countTotalCandidates p) :=
  ⟨fun s p => strategy_apply_count_le s p,
   fun ss p => foldl_count_le _ _ (fun q t _ => strategy_apply_count_le t q) p⟩

/-- A strategy scan never increases the total candidate count. -/
theorem scanStrategies_count_le (l : List SolvingStrategy) :
    ∀ (p : SudokuPuzzle) (last : Nat),
      countTotalCandidates (scanStrategies l p last) ≤ countTotalCandidates p := by
  induction l with
  | nil => intro p last; exact Nat.le_refl _
  | cons s rest ih =>
    intro p last
    rw [scanStrategies]
    split
    · exact strategy_apply_count_le s p
    · calc countTotalCandidates (scanStrategies rest (s.apply p) last) ≤
            countTotalCandidates (s.apply p) := ih _ _
        _ ≤ countTotalCandidates p := strategy_apply_count_le s p

/-- Fuel `countTotalCandidates p + 1` is always enough for the solver loop:
more fuel changes nothing, and the loop exits in one of the two terminal
states (solved, or a full pass with an unchanged candidate count). -/
theorem solveLoopFuel_spec (strategies : List SolvingStrategy) :
    ∀ n (p : SudokuPuzzle), countTotalCandidates p < n →
      (∀ m, n ≤ m → solveLoopFuel strategies m p = solveLoopFuel strategies n p) ∧
      ∃ r : SudokuPuzzle,
        solveLoopFuel strategies n p =
          scanStrategies strategies r (countTotalCandidates r) ∧
        (countSolvedCells (solveLoopFuel strategies n p) = NUMBER_OF_CELLS ∨
          countTotalCandidates (scanStrategies strategies r (countTotalCandidates r)) =
            countTotalCandidates r) := by
  intro n
  induction n with
  | zero => intro p h; omega
  | succ n ih =>
    intro p hp
    by_cases hsolved :
        countSolvedCells (scanStrategies strategies p (countTotalCandidates p)) =
          NUMBER_OF_CELLS
    · constructor
      · intro m hm
        rcases m with - | m
        · omega
        · simp only [solveLoopFuel, if_pos hsolved]
      · refine ⟨p, ?_, ?_⟩
        · simp only [solveLoopFuel, if_pos hsolved]
        · left; simp only [solveLoopFuel, if_pos hsolved]; exact hsolved
    · by_cases hstall :
          countTotalCandidates (scanStrategies strategies p (countTotalCandidates p)) =
            countTotalCandidates p
      · constructor
        · intro m hm
          rcases m with - | m
          · omega
          · simp only [solveLoopFuel, if_neg hsolved, if_pos hstall]
        · refine ⟨p, ?_, Or.inr hstall⟩
          simp only [solveLoopFuel, if_neg hsolved, if_pos hstall]
      · have hlt : countTotalCandidates (scanStrategies strategies p (countTotalCandidates p)) <
            countTotalCandidates p := by
          have := scanStrategies_count_le strategies p (countTotalCandidates p)
          omega
        have hih := ih (scanStrategies strategies p (countTotalCandidates p)) (by omega)
        constructor
        · intro m hm
          rcases m with - | m
          · omega
          · simp only [solveLoopFuel, if_neg hsolved, if_neg hstall]
            exact hih.1 m (by omega)
        · obtain ⟨r, hr, hterm⟩ := hih.2
          refine ⟨r, ?_, ?_⟩
          · simp only [solveLoopFuel, if_neg hsolved, if_neg hstall]; exact hr
          · rcases hterm with hs | hs
            · left; simp only [solveLoopFuel, if_neg hsolved, if_neg hstall]; exact hs
            · exact Or.inr hs

/-- C4: with a non-empty strategy list, `solve` always returns the mutated
puzzle: it is total (any fuel beyond `countTotalCandidates p + 1` computes the
same result, so the Python `while True` loop terminates) and the returned
puzzle is the result of a final scan from some state `r` that either made the
puzzle solved or left the total candidate count of `r` unchanged (the Stalled
exit); the caller distinguishes the two via `is_solved`. -/
theorem solver_solve_terminates (strategies : List SolvingStrategy) (p : SudokuPuzzle)
    (h : strategies ≠ []) :
    SudokuSolver.solve ⟨strategies⟩ p = .ok (solveLoop strategies p) ∧
    (∀ extra : Nat,
      solveLoopFuel strategies (countTotalCandidates p + 1 + extra) p =
        solveLoop strategies p) ∧
    ∃ r : SudokuPuzzle,
      solveLoop strategies p = scanStrategies strategies r (countTotalCandidates r) ∧
      ((solveLoop strategies p).is_solved = true ∨
        countTotalCandidates (scanStrategies strategies r (countTotalCandidates r)) =
          countTotalCandidates r) := by
  have hspec := solveLoopFuel_spec strategies (countTotalCandidates p + 1) p (by omega)
  refine ⟨by simp [SudokuSolver.solve, List.length_eq_zero, h], ?_, ?_⟩
  · intro extra
    exact hspec.1 _ (by omega)
  · obtain ⟨r, hr, hterm⟩ := hspec.2
    refine ⟨r, hr, ?_⟩
    rcases hterm with hs | hs
    · left
      unfold SudokuPuzzle.is_solved
      exact decide_eq_true hs
    · exact Or.inr hs

/-- Witness for `solver_solve_terminates`: the Unique strategy on an empty-cell
puzzle. -/
theorem solver_solve_terminates_witness :
    SudokuSolver.solve ⟨[SolvingStrategy.uniqueStrategy]⟩ ⟨[]⟩ =
      .ok (solveLoop [SolvingStrategy.uniqueStrategy] ⟨[]⟩) ∧
    (∀ extra : Nat,
      solveLoopFuel [SolvingStrategy.uniqueStrategy]
        (countTotalCandidates ⟨[]⟩ + 1 + extra) ⟨[]⟩ =
        solveLoop [SolvingStrategy.uniqueStrategy] ⟨[]⟩) ∧
    ∃ r : SudokuPuzzle,
      solveLoop [SolvingStrategy.uniqueStrategy] ⟨[]⟩ =
        scanStrategies [SolvingStrategy.uniqueStrategy] r (countTotalCandidates r) ∧
      ((solveLoop [SolvingStrategy.uniqueStrategy] ⟨[]⟩).is_solved = true ∨
        countTotalCandidates
            (scanStrategies [SolvingStrategy.uniqueStrategy] r (countTotalCandidates r)) =
          countTotalCandidates r) :=
  solver_solve_terminates [SolvingStrategy.uniqueStrategy] ⟨[]⟩ (by decide)

/-- A list of length one is the singleton of its default-head. -/
theorem length_one_eq_headD {α : Type} (l : List α) (d : α) (h : l.length = 1) :
    l = [l.headD d] := by
  rcases l with - | ⟨a, rest⟩
  · cases h
  · rcases rest with - | ⟨b, rest⟩
    · rfl
    · simp at h

/-- `remove_candidate` always restores the singleton-sync property. -/
theorem cellSync_remove_candidate (c : SudokuCell) (v : Int) :
    CellSync (c.remove_candidate v) := by
  unfold SudokuCell.remove_candidate CellSync
  split <;> (dsimp only; split)
  all_goals
    first
      | (rename_i h1; intro _; exact length_one_eq_headD _ 0 h1)
      | (rename_i h1; intro h; exact absurd h h1)

/-- `set_candidates` always restores the singleton-sync property. -/
theorem cellSync_set_candidates (c : SudokuCell) (cs : List Int) :
    CellSync (c.set_candidates cs) := by
  unfold SudokuCell.set_candidates CellSync
  split
  · rename_i h1
    intro _
    exact length_one_eq_headD _ 0 h1
  · rename_i h1
    intro h
    exact absurd h h1

/-- `remove_all_candidates_except` preserves the singleton-sync property. -/
theorem cellSync_remove_all_except (c : SudokuCell) (v : Int) (h : CellSync c) :
    CellSync (c.remove_all_candidates_except v) := by
  unfold SudokuCell.remove_all_candidates_except
  split
  · intro _; rfl
  · exact h

/-- Cells built by the constructor satisfy singleton sync. -/
theorem cellSync_init (r c : Nat) (v : Int) :
    CellSync (SudokuCell.init r c v) := by
  unfold SudokuCell.init CellSync NO_SOLUTION_VALUE
  by_cases hv : v = 0
  · subst hv; intro h; simp [DEFAULT_POSSIBLE_CELL_VALUE] at h
  · simp [hv]

/-- Writing a sync-correct cell preserves puzzle-wide sync. -/
theorem syncOK_setIdx (p : SudokuPuzzle) (i : Nat) (c : SudokuCell)
    (hc : CellSync c) (hp : SyncOK p) : SyncOK (p.setIdx i c) := by
  intro j
  by_cases hij : i = j
  · subst hij
    rcases getIdx_setIdx_self_or p i c with h | h
    · rw [h]; exact hc
    · rw [h]; exact hp i
  · rw [getIdx_setIdx_ne _ _ _ _ hij]; exact hp j

/-- `doRemoveCandidate` preserves sync. -/
theorem syncOK_doRemoveCandidate (p : SudokuPuzzle) (i : Nat) (v : Int)
    (hp : SyncOK p) : SyncOK (doRemoveCandidate p i v) :=
  syncOK_setIdx p i _ (cellSync_remove_candidate _ _) hp

/-- `doRemoveAllExcept` preserves sync. -/
theorem syncOK_doRemoveAllExcept (p : SudokuPuzzle) (i : Nat) (v : Int)
    (hp : SyncOK p) : SyncOK (doRemoveAllExcept p i v) :=
  syncOK_setIdx p i _ (cellSync_remove_all_except _ _ (hp i)) hp

/-- `doSetCandidates` preserves sync. -/
theorem syncOK_doSetCandidates (p : SudokuPuzzle) (i : Nat) (cs : List Int)
    (hp : SyncOK p) : SyncOK (doSetCandidates p i cs) :=
  syncOK_setIdx p i _ (cellSync_set_candidates _ _) hp

/-- One prune visit preserves sync. -/
theorem syncOK_pruneStep (v : Int) (q : SudokuPuzzle) (j : Nat)
    (hq : SyncOK q) : SyncOK (pruneStep v q j) := by
  rw [pruneStep]
  split
  · exact syncOK_setIdx q j _ (cellSync_remove_candidate _ _) hq
  · exact hq

/-- Pruning a solved cell's value preserves sync. -/
theorem syncOK_prune (p : SudokuPuzzle) (i : Nat) (hp : SyncOK p) :
    SyncOK (prune_solved_value_from_units_containing_cell p i) := by
  rw [prune_solved_value_from_units_containing_cell]
  split
  · refine foldl_preserves SyncOK _ _ (fun q a _ hq => syncOK_pruneStep _ q a hq) _ ?_
    refine foldl_preserves SyncOK _ _ (fun q a _ hq => syncOK_pruneStep _ q a hq) _ ?_
    exact foldl_preserves SyncOK _ _ (fun q a _ hq => syncOK_pruneStep _ q a hq) _ hp
  · exact hp

/-- Every strategy application preserves sync. -/
theorem syncOK_strategy_apply (s : SolvingStrategy) (p : SudokuPuzzle)
    (hp : SyncOK p) : SyncOK (s.apply p) := by
  cases s
  · unfold SolvingStrategy.apply applyUnique
    refine foldl_preserves SyncOK _ _ (fun q u _ hq => ?_) _
      (foldl_preserves SyncOK _ _ (fun q i _ hq => syncOK_prune q i hq) _ hp)
    unfold applyUniqueUnit
    refine foldl_preserves SyncOK _ _ (fun q1 vi _ hq1 => ?_) q hq
    exact syncOK_prune _ _ (syncOK_doRemoveAllExcept _ _ _ hq1)
  · unfold SolvingStrategy.apply applyHiddenPair
    refine foldl_preserves SyncOK _ _ (fun q u _ hq => ?_) _ hp
    unfold applyHiddenPairUnit
    refine foldl_preserves SyncOK _ _ (fun q1 vc _ hq1 => ?_) q hq
    refine foldl_preserves SyncOK _ _ (fun q2 wc _ hq2 => ?_) q1 hq1
    dsimp only
    split
    · exact foldl_preserves SyncOK _ _
        (fun q3 i _ hq3 => syncOK_doSetCandidates q3 i _ hq3) q2 hq2
    · exact hq2
  · unfold SolvingStrategy.apply applyHiddenTriplet
    refine foldl_preserves SyncOK _ _ (fun q u _ hq => ?_) _ hp
    unfold applyHiddenTripletUnit
    refine foldl_preserves SyncOK _ _ (fun q1 vc _ hq1 => ?_) q hq
    refine foldl_preserves SyncOK _ _ (fun q2 wc _ hq2 => ?_) q1 hq1
    refine foldl_preserves SyncOK _ _ (fun q3 xc _ hq3 => ?_) q2 hq2
    dsimp only
    split
    · exact foldl_preserves SyncOK _ _
        (fun q4 i _ hq4 => syncOK_doSetCandidates q4 i _ hq4) q3 hq3
    · exact hq3
  · unfold SolvingStrategy.apply applyNakedPair
    refine foldl_preserves SyncOK _ _ (fun q u _ hq => ?_) _ hp
    unfold applyNakedPairUnit
    refine foldl_preserves SyncOK _ _ (fun q1 ij _ hq1 => ?_) q hq
    dsimp only
    split
    · refine foldl_preserves SyncOK _ _ (fun q2 j _ hq2 => ?_) q1 hq1
      dsimp only
      split
      · exact foldl_preserves SyncOK _ _
          (fun q3 v _ hq3 => syncOK_doRemoveCandidate q3 _ v hq3) q2 hq2
      · exact hq2
    · exact hq1
  · unfold SolvingStrategy.apply applyBoxLineInterpolation
    refine foldl_preserves SyncOK _ _ (fun q u _ hq => ?_) _ hp
    unfold applyBoxLineInterpolationBox
    refine foldl_preserves SyncOK _ _ (fun q1 vc _ hq1 => ?_) q hq
    have hline : ∀ (qq : SudokuPuzzle) (line cs : List Nat) (v : Int), SyncOK qq →
        SyncOK (lineRemoveOutside qq line cs v) := by
      intro qq line cs v hqq
      unfold lineRemoveOutside
      refine foldl_preserves SyncOK _ _ (fun q2 j _ hq2 => ?_) qq hqq
      dsimp only
      split
      · exact hq2
      · exact syncOK_doRemoveCandidate _ _ _ hq2
    dsimp only
    split
    · split
      · refine hline _ _ _ _ ?_
        split
        · exact hline _ _ _ _ hq1
        · exact hq1
      · split
        · exact hline _ _ _ _ hq1
        · exact hq1
    · exact hq1
  · unfold SolvingStrategy.apply applyBoxLineExtrapolation
    have hline : ∀ (qq : SudokuPuzzle) (line cs : List Nat) (v : Int), SyncOK qq →
        SyncOK (lineRemoveOutside qq line cs v) := by
      intro qq line cs v hqq
      unfold lineRemoveOutside
      refine foldl_preserves SyncOK _ _ (fun q2 j _ hq2 => ?_) qq hqq
      dsimp only
      split
      · exact hq2
      · exact syncOK_doRemoveCandidate _ _ _ hq2
    have hunit : ∀ (q : SudokuPuzzle) (u : List Nat), SyncOK q →
        SyncOK (applyBoxLineExtrapolationUnit q u) := by
      intro q u hq
      unfold applyBoxLineExtrapolationUnit
      refine foldl_preserves SyncOK _ _ (fun q1 vc _ hq1 => ?_) q hq
      dsimp only
      split
      · exact hline _ _ _ _ hq1
      · exact hq1
    exact foldl_preserves SyncOK _ _ (fun q u _ hq => hunit q u hq) _
      (foldl_preserves SyncOK _ _ (fun q u _ hq => hunit q u hq) _ hp)
  · unfold SolvingStrategy.apply applyRectangleCornerReductions rectangleOuterStep
    refine foldl_preserves SyncOK _ _ (fun q i _ hq => ?_) _ hp
    refine foldl_preserves SyncOK _ _ (fun q1 j _ hq1 => ?_) q hq
    dsimp only
    split
    · refine foldl_preserves SyncOK _ _ (fun q2 v _ hq2 => ?_) q1 hq1
      unfold rectangleRemovals
      have hpair : ∀ (qq : SudokuPuzzle) (i1 i2 : Nat) (v : Int), SyncOK qq →
          SyncOK (doRemoveCandidate (doRemoveCandidate qq i1 v) i2 v) := by
        intro qq i1 i2 v hqq
        exact syncOK_doRemoveCandidate _ _ _ (syncOK_doRemoveCandidate _ _ _ hqq)
      refine foldl_preserves SyncOK _ _ (fun qq r _ hqq => ?_) _ ?_
      · dsimp only
        split
        · exact hpair _ _ _ _ hqq
        · exact hqq
      · refine foldl_preserves SyncOK _ _ (fun qq c _ hqq => ?_) q2 hq2
        dsimp only
        split
        · exact hpair _ _ _ _ hqq
        · exact hqq
    · exact hq1

/-- The strategy scan preserves sync. -/
theorem syncOK_scanStrategies (l : List SolvingStrategy) :
    ∀ (p : SudokuPuzzle) (last : Nat), SyncOK p → SyncOK (scanStrategies l p last) := by
  induction l with
  | nil => intro p last hp; exact hp
  | cons s rest ih =>
    intro p last hp
    rw [scanStrategies]
    split
    · exact syncOK_strategy_apply s p hp
    · exact ih _ _ (syncOK_strategy_apply s p hp)

/-- The solver loop preserves sync. -/
theorem syncOK_solveLoopFuel (strategies : List SolvingStrategy) :
    ∀ (fuel : Nat) (p : SudokuPuzzle), SyncOK p → SyncOK (solveLoopFuel strategies fuel p) := by
  intro fuel
  induction fuel with
  | zero => intro p hp; exact hp
  | succ n ih =>
    intro p hp
    simp only [solveLoopFuel]
    split
    · exact syncOK_scanStrategies _ _ _ hp
    · split
      · exact syncOK_scanStrategies _ _ _ hp
      · exact ih _ (syncOK_scanStrategies _ _ _ hp)

/-- Every public operation preserves sync. -/
theorem syncOK_applyPuzzleOp (p : SudokuPuzzle) (op : PuzzleOp) (hp : SyncOK p) :
    SyncOK (applyPuzzleOp p op) := by
  cases op with
  | removeCand i v => exact syncOK_doRemoveCandidate p i v hp
  | removeAllExcept i v => exact syncOK_doRemoveAllExcept p i v hp
  | setCands i cs => exact syncOK_doSetCandidates p i cs hp
  | strategyApply s => exact syncOK_strategy_apply s p hp
  | solverSolve strategies =>
    simp only [applyPuzzleOp]
    split
    · exact hp
    · exact syncOK_solveLoopFuel strategies _ p hp

/-- The cells produced by the grid-construction loop are constructor cells. -/
theorem setup_grid_go_shape (s : List Char) :
    ∀ (ks : List Nat) (cs : List SudokuCell), setup_grid_go s ks = .ok cs →
      ∀ cell ∈ cs, ∃ r c v, cell = SudokuCell.init r c v := by
  intro ks
  induction ks with
  | nil =>
    intro cs h cell hcell
    cases h
    cases hcell
  | cons k ks ih =>
    intro cs h cell hcell
    rw [setup_grid_go] at h
    rcases hchar : getCharAt s k with e | ch
    · simp only [hchar] at h; cases h
    · simp only [hchar] at h
      rcases hval : charToCellValue ch with e | v
      · simp only [hval] at h; cases h
      · simp only [hval] at h
        rcases hgo : setup_grid_go s ks with e | rest
        · simp only [hgo] at h; cases h
        · simp only [hgo] at h
          cases h
          rcases List.mem_cons.1 hcell with rfl | hmem
          · exact ⟨k / 9 + 1, k % 9 + 1, v, rfl⟩
          · exact ih rest hgo cell hmem

/-- A freshly constructed puzzle satisfies sync. -/
theorem syncOK_of_init (s : List Char) (p : SudokuPuzzle)
    (h : SudokuPuzzle.init s = .ok p) : SyncOK p := by
  unfold SudokuPuzzle.init at h
  rcases hsg : setup_grid s with e | cs
  · rw [hsg] at h; cases h
  · rw [hsg] at h
    cases h
    intro i
    unfold SudokuPuzzle.getIdx
    dsimp only
    by_cases hi : i < cs.length
    · have hmem : cs.getD i defaultCell ∈ cs := by
        rw [List.getD_eq_getElem _ _ hi]
        exact List.getElem_mem hi
      obtain ⟨r, c, v, hrcv⟩ := setup_grid_go_shape s (List.range 81) cs hsg _ hmem
      rw [hrcv]
      exact cellSync_init r c v
    · rw [List.getD_eq_default _ _ (by omega)]
      exact cellSync_init 0 0 0

/-- C2 amended: after puzzle construction from a string and any sequence of
public operations (cell candidate operations, strategy applications, solver
runs), a cell whose candidate list has exactly one element always stores that
element as its value.  The converse direction of the claimed equivalence —
`value != 0` implies a singleton candidate list — is refuted by the
counterexample (a solved cell's last candidate can be removed, leaving
`value != 0` with zero candidates). -/
theorem cell_sync_invariant (s : List Char) (p : SudokuPuzzle)
    (h : SudokuPuzzle.init s = .ok p) (ops : List PuzzleOp) :
    ∀ i < 81,
      ((applyPuzzleOps p ops).getIdx i).candidates.length = 1 →
      ((applyPuzzleOps p ops).getIdx i).candidates =
        [((applyPuzzleOps p ops).getIdx i).value] := by
  have hsync : SyncOK (applyPuzzleOps p ops) := by
    unfold applyPuzzleOps
    exact foldl_preserves SyncOK _ _ (fun q op _ hq => syncOK_applyPuzzleOp q op hq) p
      (syncOK_of_init s p h)
  intro i _ hlen
  exact hsync i hlen

/-- Witness for `cell_sync_invariant`: collapsing cell (1,1) of a parsed blank
puzzle to the single candidate 4 leaves its candidate list equal to `[value]`. -/
theorem cell_sync_invariant_witness :
    ((applyPuzzleOps parsedBlank [PuzzleOp.setCands 0 [4]]).getIdx 0).candidates =
      [((applyPuzzleOps parsedBlank [PuzzleOp.setCands 0 [4]]).getIdx 0).value] :=
  cell_sync_invariant blankInput parsedBlank rfl [PuzzleOp.setCands 0 [4]] 0
    (by decide) (by decide)

/-- C2 counterexample: on the puzzle parsed from an 81-digit string with the
given 5 at cell (1,1), the public operation `remove_candidate 5` on that cell
leaves `value = 5` with an empty candidate list, so `value != 0` holds while
`|candidates| = 1` fails — the claimed equivalence is violated. -/
theorem cell_value_candidates_desync_counterexample :
    SudokuPuzzle.init fiveInput = .ok parsedFive ∧
    ¬ ((((applyPuzzleOps parsedFive [PuzzleOp.removeCand 0 5]).getIdx 0).value ≠ 0) ↔
       (((applyPuzzleOps parsedFive [PuzzleOp.removeCand 0 5]).getIdx 0).candidates.length = 1)) :=
  ⟨rfl, by decide⟩

/-- `remove_candidate` keeps the position fields. -/
theorem remove_candidate_row_col (c : SudokuCell) (v : Int) :
    (c.remove_candidate v).row_id = c.row_id ∧ (c.remove_candidate v).col_id = c.col_id := by
  refine ⟨?_, ?_⟩ <;> (rw [SudokuCell.remove_candidate]; split <;> split <;> rfl)

/-- `remove_candidate` either keeps the value or promotes on a singleton. -/
theorem remove_candidate_value_eq (c : SudokuCell) (v : Int) :
    (c.remove_candidate v).value = c.value ∨
      (c.remove_candidate v).candidates.length = 1 := by
  rw [SudokuCell.remove_candidate]
  split <;> split
  all_goals
    first
      | (rename_i h; exact Or.inr h)
      | exact Or.inl rfl

/-- Writing a cell that retains the solution digit, the sync property, the
digit discipline and its position fields preserves `SoundState`. -/
theorem soundState_setIdx (sol : Nat → Int) (p : SudokuPuzzle) (i : Nat) (c' : SudokuCell)
    (h : SoundState sol p) (hi : i < 81)
    (hmem : sol i ∈ c'.candidates)
    (hsync : c'.value ≠ 0 → c'.candidates = [c'.value])
    (hdig : ∀ w ∈ c'.candidates, w ∈ DEFAULT_POSSIBLE_CELL_VALUE)
    (hrow : c'.row_id = (p.getIdx i).row_id)
    (hcol : c'.col_id = (p.getIdx i).col_id) :
    SoundState sol (p.setIdx i c') := by
  obtain ⟨hcons, hsy, hdg, hplen, hppos⟩ := h
  have hsetI : (p.setIdx i c').getIdx i = c' := by
    unfold SudokuPuzzle.setIdx SudokuPuzzle.getIdx
    exact getD_set_self _ _ _ _ (by omega)
  have hsetN : ∀ j, i ≠ j → (p.setIdx i c').getIdx j = p.getIdx j :=
    fun j hj => getIdx_setIdx_ne p i j c' hj
  refine ⟨?_, ?_, ?_, ?_, ?_⟩
  · intro j hj
    by_cases hij : i = j
    · subst hij; rw [hsetI]; exact hmem
    · rw [hsetN j hij]; exact hcons j hj
  · intro j hj
    by_cases hij : i = j
    · subst hij; rw [hsetI]; exact hsync
    · rw [hsetN j hij]; exact hsy j hj
  · intro j hj
    by_cases hij : i = j
    · subst hij; rw [hsetI]; exact hdig
    · rw [hsetN j hij]; exact hdg j hj
  · unfold SudokuPuzzle.setIdx
    simpa using hplen
  · intro j hj
    by_cases hij : i = j
    · subst hij; rw [hsetI, hrow, hcol]
      exact ⟨(hppos i hj).1, (hppos i hj).2⟩
    · rw [hsetN j hij]; exact hppos j hj

/-- An out-of-range write leaves the puzzle unchanged. -/
theorem setIdx_out_of_range (p : SudokuPuzzle) (i : Nat) (c : SudokuCell)
    (h : p.cells.length ≤ i) : p.setIdx i c = p := by
  unfold SudokuPuzzle.setIdx
  rw [set_eq_of_length_le _ _ _ h]

/-- Removing a non-solution candidate preserves `SoundState`. -/
theorem sound_doRemoveCandidate (sol : Nat → Int) (p : SudokuPuzzle) (i : Nat) (v : Int)
    (hjust : i < 81 → sol i ≠ v) (h : SoundState sol p) :
    SoundState sol (doRemoveCandidate p i v) := by
  by_cases hi : i < 81
  · have hcands := remove_candidate_candidates (p.getIdx i) v
    have hne := hjust hi
    have hmem : sol i ∈ ((p.getIdx i).remove_candidate v).candidates := by
      rw [hcands]
      split
      · exact (List.mem_erase_of_ne hne).2 (h.1 i hi)
      · exact h.1 i hi
    refine soundState_setIdx sol p i _ h hi hmem ?_ ?_
      (remove_candidate_row_col _ _).1 (remove_candidate_row_col _ _).2
    · intro hv0
      by_cases hl : ((p.getIdx i).remove_candidate v).candidates.length = 1
      · exact cellSync_remove_candidate _ _ hl
      · exfalso
        rcases remove_candidate_value_eq (p.getIdx i) v with hveq | hveq
        · rw [hveq] at hv0
          have hold : (p.getIdx i).candidates = [(p.getIdx i).value] := h.2.1 i hi hv0
          have hsolv : sol i = (p.getIdx i).value := by
            have := h.1 i hi
            rw [hold] at this
            simpa using this
          have hvnot : v ∉ (p.getIdx i).candidates := by
            rw [hold]
            simp only [List.mem_singleton]
            intro hveq2
            exact hne (by rw [hsolv, hveq2])
          rw [hcands, if_neg hvnot, hold] at hl
          simp at hl
        · exact hl hveq
    · intro w hw
      rw [hcands] at hw
      refine h.2.2.1 i hi w ?_
      revert hw
      split
      · exact fun hw => List.mem_of_mem_erase hw
      · exact fun hw => hw
  · rw [show doRemoveCandidate p i v = p from
      setIdx_out_of_range p i _ (by rw [h.2.2.2.1]; omega)]
    exact h

/-- Collapsing a cell to its own solution digit preserves `SoundState`. -/
theorem sound_doRemoveAllExcept (sol : Nat → Int) (p : SudokuPuzzle) (i : Nat) (v : Int)
    (hjust : i < 81 → sol i = v) (h : SoundState sol p) :
    SoundState sol (doRemoveAllExcept p i v) := by
  by_cases hi : i < 81
  · unfold doRemoveAllExcept SudokuCell.remove_all_candidates_except
    split
    · rename_i hvmem
      refine soundState_setIdx sol p i _ h hi ?_ ?_ ?_ rfl rfl
      · simp [hjust hi]
      · intro _; rfl
      · intro w hw
        simp only [List.mem_singleton] at hw
        subst hw
        exact h.2.2.1 i hi w hvmem
    · exact soundState_setIdx sol p i _ h hi (h.1 i hi) (h.2.1 i hi) (h.2.2.1 i hi) rfl rfl
  · rw [show doRemoveAllExcept p i v = p from
      setIdx_out_of_range p i _ (by rw [h.2.2.2.1]; omega)]
    exact h

/-- Replacing a cell's candidates by a digit list containing its solution
digit, on an unsolved cell (or by a singleton), preserves `SoundState`. -/
theorem sound_doSetCandidates (sol : Nat → Int) (p : SudokuPuzzle) (i : Nat) (cs : List Int)
    (hjust : i < 81 →
      sol i ∈ cs ∧ (∀ w ∈ cs, w ∈ DEFAULT_POSSIBLE_CELL_VALUE) ∧
      ((p.getIdx i).value = 0 ∨ cs.length = 1))
    (h : SoundState sol p) :
    SoundState sol (doSetCandidates p i cs) := by
  by_cases hi : i < 81
  · obtain ⟨hmem, hdig, hval⟩ := hjust hi
    have hcan : ((p.getIdx i).set_candidates cs).candidates = cs :=
      set_candidates_candidates _ _
    refine soundState_setIdx sol p i _ h hi (by rw [hcan]; exact hmem) ?_
      (by rw [hcan]; exact hdig) ?_ ?_
    · intro hv0
      by_cases hl : ((p.getIdx i).set_candidates cs).candidates.length = 1
      · exact cellSync_set_candidates _ _ hl
      · exfalso
        rw [hcan] at hl
        rcases hval with hval | hval
        · revert hv0
          unfold SudokuCell.set_candidates
          rw [if_neg hl]
          intro hv0
          exact hv0 hval
        · exact hl hval
    · unfold SudokuCell.set_candidates; split <;> rfl
    · unfold SudokuCell.set_candidates; split <;> rfl
  · rw [show doSetCandidates p i cs = p from
      setIdx_out_of_range p i _ (by rw [h.2.2.2.1]; omega)]
    exact h

/-- A 2-element list containing two distinct values consists exactly of them. -/
theorem mem_of_two {α : Type} [DecidableEq α] {l : List α} {a b : α}
    (hlen : l.length = 2) (hab : a ≠ b) (ha : a ∈ l) (hb : b ∈ l) :
    ∀ x ∈ l, x = a ∨ x = b := by
  have hsub : ({a, b} : Finset α) ⊆ l.toFinset := by
    intro x hx
    rcases Finset.mem_insert.1 hx with rfl | hx
    · exact List.mem_toFinset.2 ha
    · rw [Finset.mem_singleton] at hx; subst hx; exact List.mem_toFinset.2 hb
  have hcard : ({a, b} : Finset α).card = 2 := by
    rw [Finset.card_insert_of_not_mem (by simp [hab]), Finset.card_singleton]
  have heq : ({a, b} : Finset α) = l.toFinset :=
    Finset.eq_of_subset_of_card_le hsub
      (le_trans l.toFinset_card_le (by rw [hlen, hcard]))
  intro x hx
  have : x ∈ ({a, b} : Finset α) := heq ▸ List.mem_toFinset.2 hx
  simpa using this

/-- A 3-element list containing three pairwise distinct values consists exactly
of them. -/
theorem mem_of_three {α : Type} [DecidableEq α] {l : List α} {a b c : α}
    (hlen : l.length = 3) (hab : a ≠ b) (hac : a ≠ c) (hbc : b ≠ c)
    (ha : a ∈ l) (hb : b ∈ l) (hc : c ∈ l) :
    ∀ x ∈ l, x = a ∨ x = b ∨ x = c := by
  have hsub : ({a, b, c} : Finset α) ⊆ l.toFinset := by
    intro x hx
    rcases Finset.mem_insert.1 hx with rfl | hx
    · exact List.mem_toFinset.2 ha
    · rcases Finset.mem_insert.1 hx with rfl | hx
      · exact List.mem_toFinset.2 hb
      · rw [Finset.mem_singleton] at hx; subst hx; exact List.mem_toFinset.2 hc
  have hcard : ({a, b, c} : Finset α).card = 3 := by
    rw [Finset.card_insert_of_not_mem (by simp [hab, hac]),
      Finset.card_insert_of_not_mem (by simp [hbc]), Finset.card_singleton]
  have heq : ({a, b, c} : Finset α) = l.toFinset :=
    Finset.eq_of_subset_of_card_le hsub
      (le_trans l.toFinset_card_le (by rw [hlen, hcard]))
  intro x hx
  have : x ∈ ({a, b, c} : Finset α) := heq ▸ List.mem_toFinset.2 hx
  simpa using this

/-- Index geometry: every flat index lies in its row, column and box unit, and
those units are among the 27 units. -/
theorem geom_pack :
    ∀ i < 81,
      i ∈ rowIndices (i / 9 + 1) ∧ rowIndices (i / 9 + 1) ∈ allUnitsIdx ∧
      i ∈ colIndices (i % 9 + 1) ∧ colIndices (i % 9 + 1) ∈ allUnitsIdx ∧
      i ∈ boxIndices (to_box_id (i / 9 + 1) (i % 9 + 1)) ∧
      boxIndices (to_box_id (i / 9 + 1) (i % 9 + 1)) ∈ allUnitsIdx := by decide

/-- Every unit index is a valid flat index. -/
theorem allUnits_bound : ∀ u ∈ allUnitsIdx, ∀ i ∈ u, i < 81 := by decide

/-- Every unit's index list has no duplicates. -/
theorem allUnits_nodup : ∀ u ∈ allUnitsIdx, u.Nodup := by decide

/-- The 9 box units are among the 27 units. -/
theorem boxUnits_sub_allUnits : ∀ u ∈ boxUnitsIdx, u ∈ allUnitsIdx := by decide

/-- The 9 row and 9 column units are among the 27 units. -/
theorem rowColUnits_sub_allUnits :
    (∀ u ∈ rowUnitsIdx, u ∈ allUnitsIdx) ∧ ∀ u ∈ colUnitsIdx, u ∈ allUnitsIdx := by decide

/-- A valid solution assigns distinct digits to distinct cells of a unit. -/
theorem validSolution_distinct (sol : Nat → Int) (hsol : ValidSolution sol)
    (u : List Nat) (hu : u ∈ allUnitsIdx) (i j : Nat) (hi : i ∈ u) (hj : j ∈ u)
    (hij : i ≠ j) : sol i ≠ sol j := by
  intro heq
  have hid : sol i ∈ DEFAULT_POSSIBLE_CELL_VALUE :=
    hsol.1 i (allUnits_bound u hu i hi)
  have hcount := hsol.2 u hu (sol i) hid
  have hfi : i ∈ u.filter (fun k => sol k = sol i) :=
    List.mem_filter.2 ⟨hi, by simp⟩
  have hfj : j ∈ u.filter (fun k => sol k = sol i) :=
    List.mem_filter.2 ⟨hj, by simp [heq]⟩
  have : 2 ≤ (u.filter (fun k => sol k = sol i)).length :=
    two_mem_le_length hij hfi hfj
  omega

/-- A valid solution places every digit somewhere in every unit. -/
theorem validSolution_exists_pos (sol : Nat → Int) (hsol : ValidSolution sol)
    (u : List Nat) (hu : u ∈ allUnitsIdx) (d : Int)
    (hd : d ∈ DEFAULT_POSSIBLE_CELL_VALUE) : ∃ i ∈ u, sol i = d := by
  have hcount := hsol.2 u hu d hd
  rcases hne : u.filter (fun k => sol k = d) with - | ⟨i, rest⟩
  · rw [hne] at hcount; cases hcount
  · have : i ∈ u.filter (fun k => sol k = d) := by rw [hne]; exact List.mem_cons_self _ _
    have hmem := List.mem_filter.1 this
    exact ⟨i, hmem.1, by simpa using hmem.2⟩

/-- Pruning a solved cell's value through one unit containing it preserves
`SoundState` and keeps the cell solved. -/
theorem sound_pruneUnit (sol : Nat → Int) (hsol : ValidSolution sol) (v : Int) (i : Nat)
    (unit : List Nat) (hunit : unit ∈ allUnitsIdx) (hiu : i ∈ unit) (hvi : sol i = v)
    (q : SudokuPuzzle) (hq : SoundState sol q) (hs : (q.getIdx i).is_solved = true) :
    SoundState sol (unit.foldl (pruneStep v) q) ∧
    ((unit.foldl (pruneStep v) q).getIdx i).is_solved = true := by
  refine foldl_preserves
    (fun q' => SoundState sol q' ∧ ((q'.getIdx i).is_solved = true)) _ _ ?_ q ⟨hq, hs⟩
  rintro q' j hj ⟨hq', hs'⟩
  rw [pruneStep]
  split
  · rename_i hguard
    have hji : j ≠ i := by
      intro h
      rw [h, hs'] at hguard
      cases hguard.1
    have hne : j < 81 → sol j ≠ v := by
      intro _
      rw [← hvi]
      exact validSolution_distinct sol hsol unit hunit j i hj hiu hji
    refine ⟨sound_doRemoveCandidate sol q' j v hne hq', ?_⟩
    rw [getIdx_setIdx_ne q' j i _ hji]
    exact hs'
  · exact ⟨hq', hs'⟩

/-- `prune_solved_value_from_units_containing_cell` preserves `SoundState`. -/
theorem sound_prune (sol : Nat → Int) (hsol : ValidSolution sol) (p : SudokuPuzzle)
    (i : Nat) (hi : i < 81) (h : SoundState sol p) :
    SoundState sol (prune_solved_value_from_units_containing_cell p i) := by
  rw [prune_solved_value_from_units_containing_cell]
  split
  · rename_i hsolved
    have hppos := h.2.2.2.2
    have hrow : (p.getIdx i).row_id = i / 9 + 1 := (hppos i hi).1
    have hcol : (p.getIdx i).col_id = i % 9 + 1 := (hppos i hi).2
    have hvalne : (p.getIdx i).value ≠ 0 := by
      simpa [SudokuCell.is_solved, NO_SOLUTION_VALUE] using hsolved
    have hsync := h.2.1 i hi hvalne
    have hval : sol i = (p.getIdx i).value := by
      have := h.1 i hi
      rw [hsync] at this
      simpa using this
    obtain ⟨hgr1, hgr2, hgc1, hgc2, hgb1, hgb2⟩ := geom_pack i hi
    rw [hrow, hcol]
    have step1 := sound_pruneUnit sol hsol (p.getIdx i).value i
      (rowIndices (i / 9 + 1)) hgr2 hgr1 hval p h hsolved
    have step2 := sound_pruneUnit sol hsol (p.getIdx i).value i
      (colIndices (i % 9 + 1)) hgc2 hgc1 hval _ step1.1 step1.2
    have step3 := sound_pruneUnit sol hsol (p.getIdx i).value i
      (boxIndices (to_box_id (i / 9 + 1) (i % 9 + 1))) hgb2 hgb1 hval _
      step2.1 step2.2
    exact step3.1
  · exact h

/-- The key of each entry of `get_unique_candidates` is the unit's solution
digit of the entry's cell, and that cell lies in the unit. -/
theorem unique_candidate_sound (sol : Nat → Int) (hsol : ValidSolution sol)
    (q : SudokuPuzzle) (unit : List Nat) (hunit : unit ∈ allUnitsIdx)
    (hq : SoundState sol q) (vi : Int × Nat)
    (hvi : vi ∈ get_unique_candidates q unit) :
    sol vi.2 = vi.1 ∧ vi.2 ∈ unit := by
  unfold get_unique_candidates at hvi
  rcases List.mem_filterMap.1 hvi with ⟨v, hv, hvsome⟩
  by_cases hlen : ((occList q unit).filter (fun wi => wi.1 = v)).length = 1
  · rw [if_pos hlen] at hvsome
    obtain ⟨e, he⟩ := List.length_eq_one.1 hlen
    have hein : e ∈ (occList q unit).filter (fun wi => wi.1 = v) := by
      rw [he]; exact List.mem_cons_self _ _
    have hefacts := List.mem_filter.1 hein
    have he1 : e.1 = v := by simpa using hefacts.2
    have hocc : e.2 ∈ unit ∧ v ∈ (q.getIdx e.2).candidates := by
      have : (v, e.2) ∈ occList q unit := by
        rw [← he1]
        exact hefacts.1
      exact (occList_mem q unit v e.2).1 this
    have hvi2 : vi = (v, e.2) := by
      have : some (v, (((occList q unit).filter (fun wi => wi.1 = v)).headD (0, 0)).2) =
          some vi := hvsome
      have hhead : ((occList q unit).filter (fun wi => wi.1 = v)).headD (0, 0) = e := by
        rw [he]; rfl
      rw [hhead] at this
      exact (Option.some_inj.1 this).symm
    have hvdig : v ∈ DEFAULT_POSSIBLE_CELL_VALUE :=
      hq.2.2.1 e.2 (allUnits_bound unit hunit e.2 hocc.1) v hocc.2
    obtain ⟨j, hju, hjv⟩ := validSolution_exists_pos sol hsol unit hunit v hvdig
    have hjocc : (v, j) ∈ occList q unit :=
      (occList_mem q unit v j).2 ⟨hju, by rw [← hjv]; exact hq.1 j (allUnits_bound unit hunit j hju)⟩
    have hjfil : (v, j) ∈ (occList q unit).filter (fun wi => wi.1 = v) :=
      List.mem_filter.2 ⟨hjocc, by simp⟩
    have hje : (v, j) = e := by
      rw [he] at hjfil
      simpa using hjfil
    rw [hvi2]
    refine ⟨?_, hocc.1⟩
    have : j = e.2 := by rw [← hje]
    simpa [this] using hjv
  · rw [if_neg hlen] at hvsome
    cases hvsome

/-- The hidden-single phase on one unit preserves `SoundState`. -/
theorem sound_applyUniqueUnit (sol : Nat → Int) (hsol : ValidSolution sol)
    (q : SudokuPuzzle) (unit : List Nat) (hunit : unit ∈ allUnitsIdx)
    (hq : SoundState sol q) : SoundState sol (applyUniqueUnit q unit) := by
  unfold applyUniqueUnit
  refine foldl_preserves (SoundState sol) _ _ ?_ q hq
  intro q1 vi hvi hq1
  obtain ⟨hveq, hvin⟩ := unique_candidate_sound sol hsol q unit hunit hq vi hvi
  have hi81 : vi.2 < 81 := allUnits_bound unit hunit vi.2 hvin
  exact sound_prune sol hsol _ vi.2 hi81
    (sound_doRemoveAllExcept sol q1 vi.2 vi.1 (fun _ => hveq) hq1)

/-- The Unique strategy preserves `SoundState`. -/
theorem sound_applyUnique (sol : Nat → Int) (hsol : ValidSolution sol)
    (p : SudokuPuzzle) (h : SoundState sol p) : SoundState sol (applyUnique p) := by
  unfold applyUnique
  refine foldl_preserves (SoundState sol) _ _
    (fun q u hu hq => sound_applyUniqueUnit sol hsol q u hu hq) _ ?_
  exact foldl_preserves (SoundState sol) _ _
    (fun q i hi hq => sound_prune sol hsol q i (List.mem_range.1 hi) hq) p h

/-- The hidden-pair pass over one unit preserves `SoundState`. -/
theorem sound_applyHiddenPairUnit (sol : Nat → Int) (hsol : ValidSolution sol)
    (q : SudokuPuzzle) (unit : List Nat) (hunit : unit ∈ allUnitsIdx)
    (hq : SoundState sol q) : SoundState sol (applyHiddenPairUnit q unit) := by
  unfold applyHiddenPairUnit
  refine (foldl_preserves
    (fun q' => SoundState sol q' ∧
      ∀ j, q'.getIdx j = q.getIdx j ∨ (q'.getIdx j).candidates.length = 2)
    _ _ ?_ q ⟨hq, fun j => Or.inl rfl⟩).1
  intro q1 vc hvc hq1
  refine foldl_preserves (fun q' => SoundState sol q' ∧
      ∀ j, q'.getIdx j = q.getIdx j ∨ (q'.getIdx j).candidates.length = 2) _ _ ?_ q1 hq1
  intro q2 wc hwc hq2
  dsimp only
  split
  · rename_i hcond
    refine foldl_preserves (fun q' => SoundState sol q' ∧
      ∀ j, q'.getIdx j = q.getIdx j ∨ (q'.getIdx j).candidates.length = 2) _ _ ?_ q2 hq2
    intro q3 i hi hq3
    have hvcf := List.mem_filter.1 hvc
    have hvc_len : vc.2.length = 2 := by simpa using hvcf.2
    have hwcf := List.mem_filter.1 hwc
    have hccm_v := candidateCellsMap_cells q unit vc.1 vc.2 hvcf.1
    have hccm_w := candidateCellsMap_cells q unit wc.1 wc.2 hwcf.1
    have hiu : i ∈ unit := (hccm_v.1 i hi).1
    have hi81 : i < 81 := allUnits_bound unit hunit i hiu
    have hvin : vc.1 ∈ (q.getIdx i).candidates := (hccm_v.1 i hi).2
    have hwin : wc.1 ∈ (q.getIdx i).candidates := (hccm_w.1 i (hcond.2 ▸ hi)).2
    have hvdig : vc.1 ∈ DEFAULT_POSSIBLE_CELL_VALUE := hq.2.2.1 i hi81 _ hvin
    have hwdig : wc.1 ∈ DEFAULT_POSSIBLE_CELL_VALUE := hq.2.2.1 i hi81 _ hwin
    obtain ⟨jv, hjvu, hjv⟩ := validSolution_exists_pos sol hsol unit hunit vc.1 hvdig
    obtain ⟨jw, hjwu, hjw⟩ := validSolution_exists_pos sol hsol unit hunit wc.1 hwdig
    have hjvcs : jv ∈ vc.2 :=
      hccm_v.2 jv hjvu (by rw [← hjv]; exact hq.1 jv (allUnits_bound _ hunit _ hjvu))
    have hjwcs : jw ∈ vc.2 := by
      rw [hcond.2]
      exact hccm_w.2 jw hjwu (by rw [← hjw]; exact hq.1 jw (allUnits_bound _ hunit _ hjwu))
    have hjvw : jv ≠ jw := by
      intro hjj
      apply hcond.1
      rw [← hjv, ← hjw, hjj]
    have hsol_i : sol i = vc.1 ∨ sol i = wc.1 := by
      rcases mem_of_two hvc_len hjvw hjvcs hjwcs i hi with h | h
      · rw [h]; exact Or.inl hjv
      · rw [h]; exact Or.inr hjw
    have hval0 : (q3.getIdx i).value = 0 := by
      by_contra hne0
      have hsyn := hq3.1.2.1 i hi81 hne0
      rcases hq3.2 i with hsame | hl2
      · have h2le : 2 ≤ (q3.getIdx i).candidates.length := by
          rw [hsame]; exact two_mem_le_length hcond.1 hvin hwin
        rw [hsyn] at h2le
        simp at h2le
      · rw [hsyn] at hl2
        simp at hl2
    refine ⟨sound_doSetCandidates sol q3 i [vc.1, wc.1] ?_ hq3.1, ?_⟩
    · intro _
      refine ⟨?_, ?_, Or.inl hval0⟩
      · rcases hsol_i with h | h <;> simp [h]
      · intro w hw
        rcases (by simpa using hw : w = vc.1 ∨ w = wc.1) with rfl | rfl
        · exact hvdig
        · exact hwdig
    · intro j
      by_cases hij : i = j
      · subst hij
        rcases getIdx_setIdx_self_or q3 i ((q3.getIdx i).set_candidates [vc.1, wc.1])
          with hs | hs
        · right
          rw [show (doSetCandidates q3 i [vc.1, wc.1]).getIdx i = _ from hs,
            set_candidates_candidates]
          rfl
        · rw [show doSetCandidates q3 i [vc.1, wc.1] = q3 from hs]
          exact hq3.2 i
      · rw [show (doSetCandidates q3 i [vc.1, wc.1]).getIdx j = q3.getIdx j from
          getIdx_setIdx_ne _ _ _ _ hij]
        exact hq3.2 j
  · exact hq2

/-- The hidden-pair strategy preserves `SoundState`. -/
theorem sound_applyHiddenPair (sol : Nat → Int) (hsol : ValidSolution sol)
    (p : SudokuPuzzle) (h : SoundState sol p) : SoundState sol (applyHiddenPair p) := by
  unfold applyHiddenPair
  exact foldl_preserves (SoundState sol) _ _
    (fun q u hu hq => sound_applyHiddenPairUnit sol hsol q u hu hq) p h

/-- The hidden-triplet pass over one unit preserves `SoundState`. -/
theorem sound_applyHiddenTripletUnit (sol : Nat → Int) (hsol : ValidSolution sol)
    (q : SudokuPuzzle) (unit : List Nat) (hunit : unit ∈ allUnitsIdx)
    (hq : SoundState sol q) : SoundState sol (applyHiddenTripletUnit q unit) := by
  unfold applyHiddenTripletUnit
  refine (foldl_preserves
    (fun q' => SoundState sol q' ∧
      ∀ j, q'.getIdx j = q.getIdx j ∨ (q'.getIdx j).candidates.length = 3)
    _ _ ?_ q ⟨hq, fun j => Or.inl rfl⟩).1
  intro q1 vc hvc hq1
  refine foldl_preserves (fun q' => SoundState sol q' ∧
      ∀ j, q'.getIdx j = q.getIdx j ∨ (q'.getIdx j).candidates.length = 3) _ _ ?_ q1 hq1
  intro q2 wc hwc hq2
  refine foldl_preserves (fun q' => SoundState sol q' ∧
      ∀ j, q'.getIdx j = q.getIdx j ∨ (q'.getIdx j).candidates.length = 3) _ _ ?_ q2 hq2
  intro q3 xc hxc hq3
  dsimp only
  split
  · rename_i hcond
    obtain ⟨⟨hvw, hvx, hwx⟩, hcs1, hcs2⟩ := hcond
    refine foldl_preserves (fun q' => SoundState sol q' ∧
      ∀ j, q'.getIdx j = q.getIdx j ∨ (q'.getIdx j).candidates.length = 3) _ _ ?_ q3 hq3
    intro q4 i hi hq4
    have hvcf := List.mem_filter.1 hvc
    have hvc_len : vc.2.length = 3 := by simpa using hvcf.2
    have hwcf := List.mem_filter.1 hwc
    have hxcf := List.mem_filter.1 hxc
    have hccm_v := candidateCellsMap_cells q unit vc.1 vc.2 hvcf.1
    have hccm_w := candidateCellsMap_cells q unit wc.1 wc.2 hwcf.1
    have hccm_x := candidateCellsMap_cells q unit xc.1 xc.2 hxcf.1
    have hiu : i ∈ unit := (hccm_v.1 i hi).1
    have hi81 : i < 81 := allUnits_bound unit hunit i hiu
    have hvin : vc.1 ∈ (q.getIdx i).candidates := (hccm_v.1 i hi).2
    have hwin : wc.1 ∈ (q.getIdx i).candidates := (hccm_w.1 i (hcs1 ▸ hi)).2
    have hxin : xc.1 ∈ (q.getIdx i).candidates := (hccm_x.1 i (hcs2 ▸ hcs1 ▸ hi)).2
    have hvdig : vc.1 ∈ DEFAULT_POSSIBLE_CELL_VALUE := hq.2.2.1 i hi81 _ hvin
    have hwdig : wc.1 ∈ DEFAULT_POSSIBLE_CELL_VALUE := hq.2.2.1 i hi81 _ hwin
    have hxdig : xc.1 ∈ DEFAULT_POSSIBLE_CELL_VALUE := hq.2.2.1 i hi81 _ hxin
    obtain ⟨jv, hjvu, hjv⟩ := validSolution_exists_pos sol hsol unit hunit vc.1 hvdig
    obtain ⟨jw, hjwu, hjw⟩ := validSolution_exists_pos sol hsol unit hunit wc.1 hwdig
    obtain ⟨jx, hjxu, hjx⟩ := validSolution_exists_pos sol hsol unit hunit xc.1 hxdig
    have hjvcs : jv ∈ vc.2 :=
      hccm_v.2 jv hjvu (by rw [← hjv]; exact hq.1 jv (allUnits_bound _ hunit _ hjvu))
    have hjwcs : jw ∈ vc.2 := by
      rw [hcs1]
      exact hccm_w.2 jw hjwu (by rw [← hjw]; exact hq.1 jw (allUnits_bound _ hunit _ hjwu))
    have hjxcs : jx ∈ vc.2 := by
      rw [hcs1, hcs2]
      exact hccm_x.2 jx hjxu (by rw [← hjx]; exact hq.1 jx (allUnits_bound _ hunit _ hjxu))
    have hjvw : jv ≠ jw := fun hjj => hvw (by rw [← hjv, ← hjw, hjj])
    have hjvx : jv ≠ jx := fun hjj => hvx (by rw [← hjv, ← hjx, hjj])
    have hjwx : jw ≠ jx := fun hjj => hwx (by rw [← hjw, ← hjx, hjj])
    have hsol_i : sol i = vc.1 ∨ sol i = wc.1 ∨ sol i = xc.1 := by
      rcases mem_of_three hvc_len hjvw hjvx hjwx hjvcs hjwcs hjxcs i hi with h | h | h
      · rw [h]; exact Or.inl hjv
      · rw [h]; exact Or.inr (Or.inl hjw)
      · rw [h]; exact Or.inr (Or.inr hjx)
    have hval0 : (q4.getIdx i).value = 0 := by
      by_contra hne0
      have hsyn := hq4.1.2.1 i hi81 hne0
      rcases hq4.2 i with hsame | hl3
      · have h3le : 3 ≤ (q4.getIdx i).candidates.length := by
          rw [hsame]; exact three_mem_le_length hvw hvx hwx hvin hwin hxin
        rw [hsyn] at h3le
        simp at h3le
      · rw [hsyn] at hl3
        simp at hl3
    refine ⟨sound_doSetCandidates sol q4 i [vc.1, wc.1, xc.1] ?_ hq4.1, ?_⟩
    · intro _
      refine ⟨?_, ?_, Or.inl hval0⟩
      · rcases hsol_i with h | h | h <;> simp [h]
      · intro w hw
        rcases (by simpa using hw : w = vc.1 ∨ w = wc.1 ∨ w = xc.1) with rfl | rfl | rfl
        · exact hvdig
        · exact hwdig
        · exact hxdig
    · intro j
      by_cases hij : i = j
      · subst hij
        rcases getIdx_setIdx_self_or q4 i ((q4.getIdx i).set_candidates [vc.1, wc.1, xc.1])
          with hs | hs
        · right
          rw [show (doSetCandidates q4 i [vc.1, wc.1, xc.1]).getIdx i = _ from hs,
            set_candidates_candidates]
          rfl
        · rw [show doSetCandidates q4 i [vc.1, wc.1, xc.1] = q4 from hs]
          exact hq4.2 i
      · rw [show (doSetCandidates q4 i [vc.1, wc.1, xc.1]).getIdx j = q4.getIdx j from
          getIdx_setIdx_ne _ _ _ _ hij]
        exact hq4.2 j
  · exact hq3

/-- The hidden-triplet strategy preserves `SoundState`. -/
theorem sound_applyHiddenTriplet (sol : Nat → Int) (hsol : ValidSolution sol)
    (p : SudokuPuzzle) (h : SoundState sol p) : SoundState sol (applyHiddenTriplet p) := by
  unfold applyHiddenTriplet
  exact foldl_preserves (SoundState sol) _ _
    (fun q u hu hq => sound_applyHiddenTripletUnit sol hsol q u hu hq) p h

/-- Membership in the ordered-pair enumeration of a duplicate-free list gives
two distinct members. -/
theorem orderedPairs_mem {α : Type} (l : List α) (hl : l.Nodup) (a b : α)
    (h : (a, b) ∈ orderedPairs l) : a ∈ l ∧ b ∈ l ∧ a ≠ b := by
  induction l with
  | nil => cases h
  | cons x xs ih =>
    rw [orderedPairs] at h
    rcases List.mem_append.1 h with h | h
    · rcases List.mem_map.1 h with ⟨y, hy, heq⟩
      rw [Prod.mk.injEq] at heq
      obtain ⟨rfl, rfl⟩ := heq
      exact ⟨List.mem_cons_self _ _, List.mem_cons_of_mem _ hy,
        fun hab => (List.nodup_cons.1 hl).1 (hab ▸ hy)⟩
    · have ih2 := ih (List.nodup_cons.1 hl).2 h
      exact ⟨List.mem_cons_of_mem _ ih2.1, List.mem_cons_of_mem _ ih2.2.1, ih2.2.2⟩

/-- The naked-pair pass over one unit preserves `SoundState`. -/
theorem sound_applyNakedPairUnit (sol : Nat → Int) (hsol : ValidSolution sol)
    (q : SudokuPuzzle) (unit : List Nat) (hunit : unit ∈ allUnitsIdx)
    (hq : SoundState sol q) : SoundState sol (applyNakedPairUnit q unit) := by
  unfold applyNakedPairUnit
  refine (foldl_preserves
    (fun q' => SoundState sol q' ∧
      ∀ j, (q'.getIdx j).candidates.length ≤ (q.getIdx j).candidates.length)
    _ _ ?_ q ⟨hq, fun j => Nat.le_refl _⟩).1
  intro q1 ij hij hq1
  dsimp only
  split
  · rename_i heq
    have hnodup : (unit.filter (fun i => (q.getIdx i).candidates.length = 2)).Nodup :=
      (allUnits_nodup unit hunit).filter _
    have hmem := orderedPairs_mem _ hnodup ij.1 ij.2 hij
    have h1f := List.mem_filter.1 hmem.1
    have h2f := List.mem_filter.1 hmem.2.1
    have h1u : ij.1 ∈ unit := h1f.1
    have h2u : ij.2 ∈ unit := h2f.1
    have h1len : (q.getIdx ij.1).candidates.length = 2 := by simpa using h1f.2
    have h181 : ij.1 < 81 := allUnits_bound unit hunit ij.1 h1u
    have h281 : ij.2 < 81 := allUnits_bound unit hunit ij.2 h2u
    have hs1 : sol ij.1 ∈ (q1.getIdx ij.1).candidates := hq1.1.1 ij.1 h181
    have hs2 : sol ij.2 ∈ (q1.getIdx ij.1).candidates := by
      rw [heq]; exact hq1.1.1 ij.2 h281
    have hdist : sol ij.1 ≠ sol ij.2 :=
      validSolution_distinct sol hsol unit hunit ij.1 ij.2 h1u h2u hmem.2.2
    have hlen2 : (q1.getIdx ij.1).candidates.length = 2 := by
      have hle := hq1.2 ij.1
      have hge := two_mem_le_length hdist hs1 hs2
      omega
    have hcases := mem_of_two hlen2 hdist hs1 hs2
    refine foldl_preserves
      (fun q' => SoundState sol q' ∧
        ∀ j, (q'.getIdx j).candidates.length ≤ (q.getIdx j).candidates.length)
      _ _ ?_ q1 hq1
    intro q2 j hju hq2
    dsimp only
    split
    · rename_i hjneq
      refine foldl_preserves
        (fun q' => SoundState sol q' ∧
          ∀ j, (q'.getIdx j).candidates.length ≤ (q.getIdx j).candidates.length)
        _ _ ?_ q2 hq2
      intro q3 v hv hq3
      have hjv : j < 81 → sol j ≠ v := by
        intro _
        rcases hcases v hv with rfl | rfl
        · exact fun hh =>
            (validSolution_distinct sol hsol unit hunit j ij.1 hju h1u hjneq.1) hh
        · exact fun hh =>
            (validSolution_distinct sol hsol unit hunit j ij.2 hju h2u hjneq.2) hh
      refine ⟨sound_doRemoveCandidate sol q3 j v hjv hq3.1, ?_⟩
      intro k
      by_cases hjk : j = k
      · subst hjk
        rcases getIdx_setIdx_self_or q3 j ((q3.getIdx j).remove_candidate v) with hs | hs
        · rw [show (doRemoveCandidate q3 j v).getIdx j = _ from hs]
          calc ((q3.getIdx j).remove_candidate v).candidates.length ≤
                (q3.getIdx j).candidates.length := remove_candidate_length_le _ _
            _ ≤ (q.getIdx j).candidates.length := hq3.2 j
        · rw [show doRemoveCandidate q3 j v = q3 from hs]
          exact hq3.2 j
      · rw [show (doRemoveCandidate q3 j v).getIdx k = q3.getIdx k from
          getIdx_setIdx_ne _ _ _ _ hjk]
        exact hq3.2 k
    · exact hq2
  · exact hq1

/-- The naked-pair strategy preserves `SoundState`. -/
theorem sound_applyNakedPair (sol : Nat → Int) (hsol : ValidSolution sol)
    (p : SudokuPuzzle) (h : SoundState sol p) : SoundState sol (applyNakedPair p) := by
  unfold applyNakedPair
  exact foldl_preserves (SoundState sol) _ _
    (fun q u hu hq => sound_applyNakedPairUnit sol hsol q u hu hq) p h

/-- `allEqNat` means every member equals the default head. -/
theorem allEqNat_eq (l : List Nat) (h : allEqNat l = true) :
    ∀ x ∈ l, x = l.headD 0 := by
  intro x hx
  have := List.all_eq_true.1 h x hx
  simpa using this

/-- Every accumulated dict key comes from some occurrence. -/
theorem keysInOrder_aux (occ : List (Int × Nat)) :
    ∀ (acc : List Int) (x : Int),
      x ∈ occ.foldl (fun ks vi => if vi.1 ∈ ks then ks else ks ++ [vi.1]) acc →
      x ∈ acc ∨ ∃ e ∈ occ, e.1 = x := by
  induction occ with
  | nil => intro acc x hx; exact Or.inl hx
  | cons e es ih =>
    intro acc x hx
    rw [List.foldl_cons] at hx
    rcases ih _ x hx with hacc | hocc
    · by_cases hmem : e.1 ∈ acc
      · rw [if_pos hmem] at hacc; exact Or.inl hacc
      · rw [if_neg hmem] at hacc
        rcases List.mem_append.1 hacc with h | h
        · exact Or.inl h
        · exact Or.inr ⟨e, List.mem_cons_self _ _, ((by simpa using h : x = e.1)).symm⟩
    · obtain ⟨f, hf, hfx⟩ := hocc
      exact Or.inr ⟨f, List.mem_cons_of_mem _ hf, hfx⟩

/-- Every key of `candidate_cell_map` has an occurrence in the unit. -/
theorem candidateCellsMap_key_mem (p : SudokuPuzzle) (unit : List Nat) (v : Int)
    (cs : List Nat) (h : (v, cs) ∈ candidateCellsMap p unit) :
    ∃ i ∈ unit, v ∈ (p.getIdx i).candidates := by
  unfold candidateCellsMap at h
  rcases List.mem_map.1 h with ⟨key, hkey, heq⟩
  rw [Prod.mk.injEq] at heq
  obtain ⟨rfl, -⟩ := heq
  rcases keysInOrder_aux (occList p unit) [] key hkey with hnil | ⟨e, he, he1⟩
  · cases hnil
  · have : (key, e.2) ∈ occList p unit := by rw [← he1]; exact he
    have hm := (occList_mem p unit key e.2).1 this
    exact ⟨e.2, hm.1, hm.2⟩

/-- The box-line removal helper preserves `SoundState` when the removed
candidate is not the solution digit of any affected cell. -/
theorem sound_lineRemoveOutside (sol : Nat → Int) (q : SudokuPuzzle)
    (line cs : List Nat) (v : Int)
    (hjust : ∀ j ∈ line, j ∉ cs → j < 81 → sol j ≠ v) (hq : SoundState sol q) :
    SoundState sol (lineRemoveOutside q line cs v) := by
  unfold lineRemoveOutside
  refine foldl_preserves (SoundState sol) _ _ ?_ q hq
  intro q1 j hj hq1
  dsimp only
  split
  · exact hq1
  · rename_i hnot
    exact sound_doRemoveCandidate sol q1 j v (fun h81 => hjust j hj hnot h81) hq1

/-- The box-line interpolation pass over one box preserves `SoundState`. -/
theorem sound_applyBoxLineInterpolationBox (sol : Nat → Int) (hsol : ValidSolution sol)
    (q : SudokuPuzzle) (unit : List Nat) (hunit : unit ∈ allUnitsIdx)
    (hq : SoundState sol q) : SoundState sol (applyBoxLineInterpolationBox q unit) := by
  unfold applyBoxLineInterpolationBox
  refine foldl_preserves (SoundState sol) _ _ ?_ q hq
  intro q1 vc hvc hq1
  dsimp only
  split
  · rename_i hlen
    have hccm := candidateCellsMap_cells q unit vc.1 vc.2 hvc
    have hne : vc.2 ≠ [] := by
      intro h0
      rw [h0] at hlen
      simp at hlen
    obtain ⟨i0, hi0⟩ := List.exists_mem_of_ne_nil _ hne
    have hi0u : i0 ∈ unit := (hccm.1 i0 hi0).1
    have hvdig : vc.1 ∈ DEFAULT_POSSIBLE_CELL_VALUE :=
      hq.2.2.1 i0 (allUnits_bound unit hunit i0 hi0u) vc.1 (hccm.1 i0 hi0).2
    obtain ⟨jb, hjbu, hjb⟩ := validSolution_exists_pos sol hsol unit hunit vc.1 hvdig
    have hjbcs : jb ∈ vc.2 :=
      hccm.2 jb hjbu (by rw [← hjb]; exact hq.1 jb (allUnits_bound _ hunit _ hjbu))
    have hjb81 : jb < 81 := allUnits_bound unit hunit jb hjbu
    obtain ⟨hgr1, hgr2, hgc1, hgc2, -, -⟩ := geom_pack jb hjb81
    have hrowJust : ∀ (q' : SudokuPuzzle),
        allEqNat (vc.2.map (fun i => (q1.getIdx i).row_id)) = true →
        ∀ j ∈ rowIndices ((vc.2.map (fun i => (q1.getIdx i).row_id)).headD 0),
          j ∉ vc.2 → j < 81 → sol j ≠ vc.1 := by
      intro q' hall j hjline hjnot _
      have hhead : (vc.2.map (fun i => (q1.getIdx i).row_id)).headD 0 = jb / 9 + 1 := by
        have hmap : (q1.getIdx jb).row_id ∈ vc.2.map (fun i => (q1.getIdx i).row_id) :=
          List.mem_map_of_mem _ hjbcs
        have heq := allEqNat_eq _ hall _ hmap
        rw [← heq]
        exact (hq1.2.2.2.2 jb hjb81).1
      rw [hhead] at hjline
      have hjjb : j ≠ jb := fun h => hjnot (h ▸ hjbcs)
      have := validSolution_distinct sol hsol (rowIndices (jb / 9 + 1)) hgr2 j jb
        hjline hgr1 hjjb
      rw [hjb] at this
      exact this
    have hcolJust :
        allEqNat (vc.2.map (fun i => (q1.getIdx i).col_id)) = true →
        ∀ j ∈ colIndices ((vc.2.map (fun i => (q1.getIdx i).col_id)).headD 0),
          j ∉ vc.2 → j < 81 → sol j ≠ vc.1 := by
      intro hall j hjline hjnot _
      have hhead : (vc.2.map (fun i => (q1.getIdx i).col_id)).headD 0 = jb % 9 + 1 := by
        have hmap : (q1.getIdx jb).col_id ∈ vc.2.map (fun i => (q1.getIdx i).col_id) :=
          List.mem_map_of_mem _ hjbcs
        have heq := allEqNat_eq _ hall _ hmap
        rw [← heq]
        exact (hq1.2.2.2.2 jb hjb81).2
      rw [hhead] at hjline
      have hjjb : j ≠ jb := fun h => hjnot (h ▸ hjbcs)
      have := validSolution_distinct sol hsol (colIndices (jb % 9 + 1)) hgc2 j jb
        hjline hgc1 hjjb
      rw [hjb] at this
      exact this
    split
    · rename_i hcls
      refine sound_lineRemoveOutside sol _ _ _ _ (fun j a b c => hcolJust hcls j a b c) ?_
      split
      · rename_i hrws
        exact sound_lineRemoveOutside sol _ _ _ _
          (fun j a b c => hrowJust q1 hrws j a b c) hq1
      · exact hq1
    · split
      · rename_i hrws
        exact sound_lineRemoveOutside sol _ _ _ _
          (fun j a b c => hrowJust q1 hrws j a b c) hq1
      · exact hq1
  · exact hq1

/-- The box-line interpolation strategy preserves `SoundState`. -/
theorem sound_applyBoxLineInterpolation (sol : Nat → Int) (hsol : ValidSolution sol)
    (p : SudokuPuzzle) (h : SoundState sol p) :
    SoundState sol (applyBoxLineInterpolation p) := by
  unfold applyBoxLineInterpolation
  exact foldl_preserves (SoundState sol) _ _
    (fun q u hu hq =>
      sound_applyBoxLineInterpolationBox sol hsol q u (boxUnits_sub_allUnits u hu) hq) p h

/-- The box-line extrapolation pass over one row or column preserves
`SoundState`. -/
theorem sound_applyBoxLineExtrapolationUnit (sol : Nat → Int) (hsol : ValidSolution sol)
    (q : SudokuPuzzle) (unit : List Nat) (hunit : unit ∈ allUnitsIdx)
    (hq : SoundState sol q) : SoundState sol (applyBoxLineExtrapolationUnit q unit) := by
  unfold applyBoxLineExtrapolationUnit
  refine foldl_preserves (SoundState sol) _ _ ?_ q hq
  intro q1 vc hvc hq1
  dsimp only
  split
  · rename_i hall
    have hccm := candidateCellsMap_cells q unit vc.1 vc.2 hvc
    obtain ⟨i0, hi0u, hi0v⟩ := candidateCellsMap_key_mem q unit vc.1 vc.2 hvc
    have hvdig : vc.1 ∈ DEFAULT_POSSIBLE_CELL_VALUE :=
      hq.2.2.1 i0 (allUnits_bound unit hunit i0 hi0u) vc.1 hi0v
    obtain ⟨jb, hjbu, hjb⟩ := validSolution_exists_pos sol hsol unit hunit vc.1 hvdig
    have hjbcs : jb ∈ vc.2 :=
      hccm.2 jb hjbu (by rw [← hjb]; exact hq.1 jb (allUnits_bound _ hunit _ hjbu))
    have hjb81 : jb < 81 := allUnits_bound unit hunit jb hjbu
    obtain ⟨-, -, -, -, hgb1, hgb2⟩ := geom_pack jb hjb81
    refine sound_lineRemoveOutside sol q1 _ _ _ ?_ hq1
    intro j hjline hjnot _
    have hhead :
        (vc.2.map (fun i => to_box_id (q1.getIdx i).row_id (q1.getIdx i).col_id)).headD 0 =
          to_box_id (jb / 9 + 1) (jb % 9 + 1) := by
      have hmap : to_box_id (q1.getIdx jb).row_id (q1.getIdx jb).col_id ∈
          vc.2.map (fun i => to_box_id (q1.getIdx i).row_id (q1.getIdx i).col_id) :=
        List.mem_map_of_mem _ hjbcs
      have heq := allEqNat_eq _ hall _ hmap
      rw [← heq, (hq1.2.2.2.2 jb hjb81).1, (hq1.2.2.2.2 jb hjb81).2]
    rw [hhead] at hjline
    have hjjb : j ≠ jb := fun h => hjnot (h ▸ hjbcs)
    have hdist := validSolution_distinct sol hsol
      (boxIndices (to_box_id (jb / 9 + 1) (jb % 9 + 1))) hgb2 j jb hjline hgb1 hjjb
    rw [hjb] at hdist
    exact hdist
  · exact hq1

/-- The box-line extrapolation strategy preserves `SoundState`. -/
theorem sound_applyBoxLineExtrapolation (sol : Nat → Int) (hsol : ValidSolution sol)
    (p : SudokuPuzzle) (h : SoundState sol p) :
    SoundState sol (applyBoxLineExtrapolation p) := by
  unfold applyBoxLineExtrapolation
  refine foldl_preserves (SoundState sol) _ _
    (fun q u hu hq =>
      sound_applyBoxLineExtrapolationUnit sol hsol q u
        (rowColUnits_sub_allUnits.2 u hu) hq) _ ?_
  exact foldl_preserves (SoundState sol) _ _
    (fun q u hu hq =>
      sound_applyBoxLineExtrapolationUnit sol hsol q u
        (rowColUnits_sub_allUnits.1 u hu) hq) p h

/-- Shared helper: each of the six strategies other than the rectangle one
preserves the full sound state. -/
theorem strategy_apply_sound (sol : Nat → Int) (hsol : ValidSolution sol)
    (s : SolvingStrategy) (hs : s ≠ SolvingStrategy.rectangleCornerReductionsStrategy)
    (p : SudokuPuzzle) (hp : SoundState sol p) : SoundState sol (s.apply p) := by
  cases s
  · exact sound_applyUnique sol hsol p hp
  · exact sound_applyHiddenPair sol hsol p hp
  · exact sound_applyHiddenTriplet sol hsol p hp
  · exact sound_applyNakedPair sol hsol p hp
  · exact sound_applyBoxLineInterpolation sol hsol p hp
  · exact sound_applyBoxLineExtrapolation sol hsol p hp
  · exact absurd rfl hs

/-- C1 amended: six of the seven strategies — all except
`RectangleCornerReductionsStrategy` — are sound: on any well-formed puzzle
state consistent with a valid solution, applying the strategy leaves the
solution's digit in every cell's candidate list.  The rectangle strategy is
not sound (see the counterexample), so the original all-seven claim fails. -/
theorem strategies_sound_except_rectangle (s : SolvingStrategy)
    (hs : s ≠ SolvingStrategy.rectangleCornerReductionsStrategy)
    (sol : Nat → Int) (p : SudokuPuzzle)
    (hsol : ValidSolution sol) (hp : SoundState sol p) :
    ConsistentWith sol (s.apply p) :=
  (strategy_apply_sound sol hsol s hs p hp).1

set_option maxRecDepth 40000 in
/-- Witness for `strategies_sound_except_rectangle`: the Unique strategy on
the parsed solved grid. -/
theorem strategies_sound_except_rectangle_witness :
    ConsistentWith exSol (SolvingStrategy.uniqueStrategy.apply solvedPuzzle) :=
  strategies_sound_except_rectangle SolvingStrategy.uniqueStrategy (by decide)
    exSol solvedPuzzle (by unfold ValidSolution; decide)
    (by unfold SoundState ConsistentWith SolvedSync CandsOK PosOK; decide)


/-- A fold whose step fixes the state leaves it unchanged. -/
theorem foldl_fix {α : Type} (f : SudokuPuzzle → α → SudokuPuzzle) (q : SudokuPuzzle)
    (l : List α) (h : ∀ a ∈ l, f q a = q) : l.foldl f q = q := by
  induction l with
  | nil => rfl
  | cons a as ih =>
    rw [List.foldl_cons, h a (List.mem_cons_self _ _)]
    exact ih (fun b hb => h b (List.mem_cons_of_mem _ hb))

set_option maxRecDepth 40000 in
/-- Evaluating the first outer corner scan on the rectangle puzzle. -/
theorem rectangle_step0_eval : rectangleOuterStep rectPuzzle 0 = rectQ1 := by decide

set_option maxRecDepth 40000 in
/-- All later outer corner scans leave the reached state unchanged. -/
theorem rectangle_later_steps_fix :
    ∀ i ∈ List.range' 1 80, rectangleOuterStep rectQ1 i = rectQ1 := by decide

set_option maxRecDepth 40000 in
/-- C1 counterexample: on a well-formed puzzle consistent with the valid
solution `exSol` (the solved grid with four cells blanked), the rectangle
strategy removes the solution digit `exSol 1 = 2` from cell (1,2): the four
blank corners (1,1), (1,4), (2,1), (2,4) share every candidate, and the
strategy erases each shared candidate from the rest of the two rows and two
columns, emptying solved cells on the way. -/
theorem rectangle_strategy_unsound_counterexample :
    ValidSolution exSol ∧ SoundState exSol rectPuzzle ∧
    exSol 1 ∈ (rectPuzzle.getIdx 1).candidates ∧
    exSol 1 ∉
      ((SolvingStrategy.rectangleCornerReductionsStrategy.apply rectPuzzle).getIdx 1).candidates := by
  have happly : SolvingStrategy.rectangleCornerReductionsStrategy.apply rectPuzzle = rectQ1 := by
    show applyRectangleCornerReductions rectPuzzle = rectQ1
    unfold applyRectangleCornerReductions
    rw [(by decide : List.range 81 = 0 :: List.range' 1 80), List.foldl_cons,
      rectangle_step0_eval]
    exact foldl_fix _ _ _ rectangle_later_steps_fix
  refine ⟨by unfold ValidSolution; decide,
    by unfold SoundState ConsistentWith SolvedSync CandsOK PosOK; decide,
    by decide, ?_⟩
  rw [happly]
  decide
